import Mathlib

/-!
Verification of the FinanceSe statement-ingestion and transaction-classification
pipeline.  The definitions below are shallow embeddings of the Python sources:
amounts are modelled as rationals, Python strings as Lean strings, fallible
operations as `Option`, and the persisted override store as an association list.
Each claim about the specification is settled by a theorem at the end of the file.
-/

/-! ## Python string primitives (ASCII behaviour, as exercised by this codebase) -/

/-- Whitespace characters stripped by Python `str.strip()` / matched by `\s`. -/
def pyIsSpace (c : Char) : Bool :=
  c == ' ' || c == '\t' || c == '\n' || c == '\r' || c == '\x0b' || c == '\x0c'

/-- ASCII digit test, as matched by `\d` on the statement data. -/
def isPyDigit (c : Char) : Bool :=
  '0' ≤ c && c ≤ '9'

/-- ASCII upper→lower pairs used by `str.lower()` on this codebase's data. -/
def upperLowerPairs : List (Char × Char) :=
  [('A','a'), ('B','b'), ('C','c'), ('D','d'), ('E','e'), ('F','f'), ('G','g'),
   ('H','h'), ('I','i'), ('J','j'), ('K','k'), ('L','l'), ('M','m'), ('N','n'),
   ('O','o'), ('P','p'), ('Q','q'), ('R','r'), ('S','s'), ('T','t'), ('U','u'),
   ('V','v'), ('W','w'), ('X','x'), ('Y','y'), ('Z','z')]

/-- Per-character lowering (`str.lower()`). -/
def lowerChar (c : Char) : Char :=
  ((upperLowerPairs.find? (fun p => p.1 == c)).map (·.2)).getD c

/-- Per-character uppering (`str.upper()`). -/
def upperChar (c : Char) : Char :=
  ((upperLowerPairs.find? (fun p => p.2 == c)).map (·.1)).getD c

def pyLower (s : String) : String := ⟨s.data.map lowerChar⟩

def pyUpper (s : String) : String := ⟨s.data.map upperChar⟩

/-- Left strip on character lists. -/
def lstripL (l : List Char) : List Char := l.dropWhile pyIsSpace

/-- Right strip on character lists. -/
def rstripL (l : List Char) : List Char := (l.reverse.dropWhile pyIsSpace).reverse

/-- Both-ends strip on character lists. -/
def stripL (l : List Char) : List Char := rstripL (lstripL l)

/-- Python `str.strip()`. -/
def pyStrip (s : String) : String := ⟨stripL s.data⟩

/-- `str.replace(a, b)` for single characters. -/
def swapCharL (l : List Char) (a b : Char) : List Char :=
  l.map (fun c => if c == a then b else c)

def swapChar (s : String) (a b : Char) : String := ⟨swapCharL s.data a b⟩

/-- `str.replace(a, "")` for a single character. -/
def removeChar (s : String) (a : Char) : String := ⟨s.data.filter (fun c => c ≠ a)⟩

/-- Substring containment, Python's `needle in hay`. -/
def containsSub (needle hay : String) : Bool := decide (needle.data <:+: hay.data)

/-! ### Strip lemmas -/

theorem dropWhile_dropWhile (p : α → Bool) (l : List α) :
    (l.dropWhile p).dropWhile p = l.dropWhile p := by
  induction l with
  | nil => rfl
  | cons c rest ih =>
    by_cases hp : p c = true
    · simp [List.dropWhile, hp, ih]
    · simp [List.dropWhile, hp]

theorem lstripL_lstripL (l : List Char) : lstripL (lstripL l) = lstripL l :=
  dropWhile_dropWhile pyIsSpace l

theorem head_not_space_of_lstrip_eq {c : Char} {rest : List Char}
    (h : lstripL (c :: rest) = c :: rest) : pyIsSpace c = false := by
  by_contra hc
  rw [Bool.not_eq_false] at hc
  have h2 : lstripL (c :: rest) = rest.dropWhile pyIsSpace := by
    simp [lstripL, List.dropWhile, hc]
  rw [h] at h2
  have hlen : (rest.dropWhile pyIsSpace).length ≤ rest.length :=
    (List.dropWhile_suffix _).length_le
  rw [← h2] at hlen
  simp at hlen

theorem lstripL_of_head_not_space {c : Char} {rest : List Char}
    (h : pyIsSpace c = false) : lstripL (c :: rest) = c :: rest := by
  simp [lstripL, List.dropWhile, h]

theorem rstripL_isPrefix (l : List Char) : rstripL l <+: l := by
  unfold rstripL
  rw [← List.reverse_suffix, List.reverse_reverse]
  exact List.dropWhile_suffix _

theorem lstripL_rstripL {m : List Char} (h : lstripL m = m) :
    lstripL (rstripL m) = rstripL m := by
  cases hm : rstripL m with
  | nil => rfl
  | cons c rest =>
    have hpre : rstripL m <+: m := rstripL_isPrefix m
    rw [hm] at hpre
    obtain ⟨t, ht⟩ := hpre
    cases m with
    | nil => simp at ht
    | cons c0 rest0 =>
      have hc : c = c0 := by
        have := ht
        simp at this
        exact this.1
      subst hc
      exact lstripL_of_head_not_space (head_not_space_of_lstrip_eq h)

theorem rstripL_rstripL (l : List Char) : rstripL (rstripL l) = rstripL l := by
  unfold rstripL
  rw [List.reverse_reverse, dropWhile_dropWhile]

theorem stripL_stripL (l : List Char) : stripL (stripL l) = stripL l := by
  unfold stripL
  rw [lstripL_rstripL (lstripL_lstripL l), rstripL_rstripL]

theorem pyStrip_pyStrip (s : String) : pyStrip (pyStrip s) = pyStrip s := by
  unfold pyStrip
  exact congrArg String.mk (stripL_stripL s.data)

/-! ## Category labels (`src/app/category_labels.py`) -/

def ACCOUNT_TRANSFER_CATEGORY : String := "Account Transfer"

def TRANSFER_CATEGORY_ALIASES : List String := ["account transfer", "credit payment"]

def INVESTMENT_CATEGORY : String := "Investment"

def INVESTMENT_NORMALIZED : String := "investment"

def INVESTMENT_CATEGORY_ALIASES : List String :=
  ["investment", "investments", "investment contribution", "investment transfer",
   "rrsp", "tfsa", "rsp", "fhsa", "retirement contribution"]

/-- `_normalize` from category_labels.py: `(category or "").strip().lower()`. -/
def normalizeLabel (category : Option String) : String :=
  pyLower (pyStrip (category.getD ""))

/-- `canonicalize_category` from category_labels.py. -/
def canonicalize_category (category : Option String) : Option String :=
  match category with
  | none => none
  | some c =>
    let trimmed := pyStrip c
    if trimmed = "" then none
    else
      let normalized := pyLower trimmed
      if normalized ∈ TRANSFER_CATEGORY_ALIASES then some ACCOUNT_TRANSFER_CATEGORY
      else if normalized ∈ INVESTMENT_CATEGORY_ALIASES
           ∨ INVESTMENT_NORMALIZED.isPrefixOf normalized then some INVESTMENT_CATEGORY
      else some trimmed

/-- `is_transfer_category` from category_labels.py. -/
def is_transfer_category (category : Option String) : Bool :=
  decide (normalizeLabel category ∈ TRANSFER_CATEGORY_ALIASES)

/-- `is_investment_category` from category_labels.py. -/
def is_investment_category (category : Option String) : Bool :=
  let normalized := normalizeLabel category
  if normalized = "" then false
  else decide (normalized ∈ INVESTMENT_CATEGORY_ALIASES)
       || INVESTMENT_NORMALIZED.isPrefixOf normalized

/-! ## Account types (`src/app/account_types.py`) -/

inductive AccountType where
  | chequing | savings | cash | credit | line_of_credit
  | tfsa | rrsp | rsp | resp | brokerage | investment | loan | fhsa
deriving DecidableEq, Repr

/-- The enum's string values. -/
def AccountType.value : AccountType → String
  | .chequing => "chequing"
  | .savings => "savings"
  | .cash => "cash"
  | .credit => "credit"
  | .line_of_credit => "line_of_credit"
  | .tfsa => "tfsa"
  | .rrsp => "rrsp"
  | .rsp => "rsp"
  | .resp => "resp"
  | .brokerage => "brokerage"
  | .investment => "investment"
  | .loan => "loan"
  | .fhsa => "fhsa"

/-- Enum member iteration order. -/
def allAccountTypes : List AccountType :=
  [.chequing, .savings, .cash, .credit, .line_of_credit,
   .tfsa, .rrsp, .rsp, .resp, .brokerage, .investment, .loan, .fhsa]

def CASH_ACCOUNT_TYPES : List AccountType := [.chequing, .savings, .cash]

def INVESTMENT_ACCOUNT_TYPES : List AccountType :=
  [.tfsa, .rrsp, .rsp, .resp, .brokerage, .investment, .fhsa]

def CREDIT_ACCOUNT_TYPES : List AccountType := [.credit, .line_of_credit, .loan]

/-- `parse_account_type` from account_types.py: lowercases and falls back to chequing. -/
def parse_account_type (value : Option String) : AccountType :=
  let normalized := pyLower (value.getD "")
  match allAccountTypes.find? (fun member => member.value == normalized) with
  | some member => member
  | none => .chequing

theorem parse_account_type_value (t : AccountType) :
    parse_account_type (some t.value) = t := by
  cases t <;> rfl

/-! ### Structure of canonical labels -/

/-- Python truthiness of an `Optional[str]`. -/
def truthyStr : Option String → Bool
  | none => false
  | some s => s != ""

theorem canonicalize_category_cases (c : Option String) :
    canonicalize_category c = none ∨
    canonicalize_category c = some ACCOUNT_TRANSFER_CATEGORY ∨
    canonicalize_category c = some INVESTMENT_CATEGORY ∨
    (∃ t, canonicalize_category c = some t ∧ pyStrip t = t ∧ t ≠ "" ∧
      pyLower t ∉ TRANSFER_CATEGORY_ALIASES ∧
      pyLower t ∉ INVESTMENT_CATEGORY_ALIASES ∧
      INVESTMENT_NORMALIZED.isPrefixOf (pyLower t) = false) := by
  have hsome : ∀ s : String, canonicalize_category (some s) =
      (if pyStrip s = "" then none
       else if pyLower (pyStrip s) ∈ TRANSFER_CATEGORY_ALIASES then
         some ACCOUNT_TRANSFER_CATEGORY
       else if pyLower (pyStrip s) ∈ INVESTMENT_CATEGORY_ALIASES
           ∨ INVESTMENT_NORMALIZED.isPrefixOf (pyLower (pyStrip s)) then
         some INVESTMENT_CATEGORY
       else some (pyStrip s)) := fun _ => rfl
  match c with
  | none => exact Or.inl rfl
  | some s =>
    rw [hsome s]
    by_cases h0 : pyStrip s = ""
    · simp [h0]
    · rw [if_neg h0]
      by_cases h1 : pyLower (pyStrip s) ∈ TRANSFER_CATEGORY_ALIASES
      · rw [if_pos h1]; exact Or.inr (Or.inl rfl)
      · rw [if_neg h1]
        by_cases h2 : pyLower (pyStrip s) ∈ INVESTMENT_CATEGORY_ALIASES
            ∨ INVESTMENT_NORMALIZED.isPrefixOf (pyLower (pyStrip s)) = true
        · rw [if_pos h2]; exact Or.inr (Or.inr (Or.inl rfl))
        · rw [if_neg h2]
          push_neg at h2
          exact Or.inr (Or.inr (Or.inr ⟨pyStrip s, rfl, pyStrip_pyStrip s, h0, h1,
            h2.1, by simpa using h2.2⟩))

theorem normalizeLabel_some_stripped {t : String} (hst : pyStrip t = t) :
    normalizeLabel (some t) = pyLower t := by
  unfold normalizeLabel
  rw [show (some t).getD "" = t from rfl, hst]

theorem is_transfer_iff_canonical_transfer (c : Option String) :
    (truthyStr (canonicalize_category c)
      && is_transfer_category (canonicalize_category c)) = true
      ↔ canonicalize_category c = some ACCOUNT_TRANSFER_CATEGORY := by
  constructor
  · intro h
    rcases canonicalize_category_cases c with h0 | h0 | h0 | ⟨t, h0, hst, hne, htr, _⟩
    · rw [h0] at h; simp [truthyStr] at h
    · exact h0
    · rw [h0] at h
      exact absurd h (by decide)
    · rw [h0] at h
      have hkey : is_transfer_category (some t) = false := by
        unfold is_transfer_category
        rw [normalizeLabel_some_stripped hst]
        simpa using htr
      rw [Bool.and_eq_true, hkey] at h
      exact absurd h.2 (by simp)
  · intro h; rw [h]; decide

/-! ## Transaction logic (`src/app/transaction_logic.py`) -/

/-- The fields of `models.Transaction` consulted by the classification logic.
Amounts are rationals (Python `Decimal`/`float` exact decimal values). -/
structure Transaction where
  amount : Option ℚ
  category : Option String

structure TransactionClassification where
  amount : ℚ
  counts_income : Bool := false
  counts_expense : Bool := false
  counts_invested : Bool := false
  is_transfer : Bool := false
deriving DecidableEq, Repr

/-- `normalize_transaction_amount` from transaction_logic.py.  The amount is a
number here (the `amount is None` pass-through of the Python code concerns only
the `None` value, which is outside this numeric domain). -/
def normalize_transaction_amount (amount : ℚ) (account_type_value : String)
    (category : Option String) : ℚ :=
  let account_type := parse_account_type (some account_type_value)
  let category_label := canonicalize_category category
  if account_type ∉ CREDIT_ACCOUNT_TYPES then amount
  else
    let magnitude := |amount|
    if truthyStr category_label && is_transfer_category category_label then magnitude
    else -magnitude

/-- `classify_transaction` from transaction_logic.py. -/
def classify_transaction (txn : Transaction) (account_type_value : String) :
    TransactionClassification :=
  let account_type := parse_account_type (some account_type_value)
  let amount := txn.amount.getD 0
  let category := canonicalize_category txn.category
  if amount = 0 then { amount := 0 }
  else if is_transfer_category category then { amount := amount, is_transfer := true }
  else if account_type ∈ INVESTMENT_ACCOUNT_TYPES ∨ is_investment_category category then
    { amount := |amount|, counts_invested := true }
  else if account_type ∈ CASH_ACCOUNT_TYPES then
    if 0 < amount then { amount := amount, counts_income := true }
    else if amount < 0 then { amount := amount, counts_expense := true }
    else { amount := amount }
  else if account_type ∈ CREDIT_ACCOUNT_TYPES then
    { amount := amount, counts_expense := true }
  else
    if 0 < amount then { amount := amount, counts_income := true }
    else if amount < 0 then { amount := amount, counts_expense := true }
    else { amount := amount }

/-! ## Monthly aggregation (`src/app/routers/transactions.py`) -/

structure TransactionSummary where
  total_income : ℚ
  total_expenses : ℚ
  total_invested : ℚ
  net_flow : ℚ
  savings_rate : ℚ
deriving DecidableEq, Repr

/-- `_calculate_transaction_totals` from routers/transactions.py (the same fold as
`aggregate_transactions` in services/transaction_metrics.py). -/
def calculate_transaction_totals (rows : List (Transaction × String)) : ℚ × ℚ × ℚ :=
  rows.foldl
    (fun acc row =>
      let classification := classify_transaction row.1 row.2
      let income :=
        if classification.counts_income then acc.1 + classification.amount else acc.1
      let expenses :=
        if classification.counts_expense then
          acc.2.1 + (if 0 < classification.amount then -|classification.amount|
                     else classification.amount)
        else acc.2.1
      let invested :=
        if classification.counts_invested then acc.2.2 + classification.amount else acc.2.2
      (income, expenses, invested))
    (0, 0, 0)

/-- The summary computed by `get_transaction_summary` in routers/transactions.py
(net-worth aside): totals, then `net_flow = income + expenses - invested` and
`savings_rate = net_flow / total_income if total_income > 0 else 0`. -/
def get_transaction_summary (rows : List (Transaction × String)) : TransactionSummary :=
  let totals := calculate_transaction_totals rows
  let total_income := totals.1
  let total_expenses := totals.2.1
  let total_invested := totals.2.2
  let net_flow := total_income + total_expenses - total_invested
  let savings_rate := if 0 < total_income then net_flow / total_income else 0
  ⟨total_income, total_expenses, total_invested, net_flow, savings_rate⟩

/-! ## Claims C1, C2, C3 -/

/-- C1: for every amount and credit-family account type, `normalize_transaction_amount`
is non-negative when the canonical category is the transfer category and non-positive
otherwise; for every non-credit-family account type the amount passes through. -/
theorem claim_C1 (amount : ℚ) (t : AccountType) (category : Option String) :
    (t ∈ CREDIT_ACCOUNT_TYPES →
      (canonicalize_category category = some ACCOUNT_TRANSFER_CATEGORY →
        0 ≤ normalize_transaction_amount amount t.value category) ∧
      (canonicalize_category category ≠ some ACCOUNT_TRANSFER_CATEGORY →
        normalize_transaction_amount amount t.value category ≤ 0)) ∧
    (t ∉ CREDIT_ACCOUNT_TYPES →
      normalize_transaction_amount amount t.value category = amount) := by
  unfold normalize_transaction_amount
  rw [parse_account_type_value]
  constructor
  · intro hmem
    rw [if_neg (by simpa using hmem)]
    constructor
    · intro hcat
      rw [if_pos ((is_transfer_iff_canonical_transfer category).mpr hcat)]
      exact abs_nonneg amount
    · intro hcat
      rw [if_neg (fun hb => hcat ((is_transfer_iff_canonical_transfer category).mp hb))]
      exact neg_nonpos.mpr (abs_nonneg amount)
  · intro hmem
    rw [if_pos hmem]

/-- C1 witness: a concrete credit transfer, a concrete credit purchase, and a
concrete cash pass-through. -/
theorem claim_C1_witness :
    0 ≤ normalize_transaction_amount (-7) AccountType.credit.value (some "credit payment") ∧
    normalize_transaction_amount 5 AccountType.loan.value (some "Groceries") ≤ 0 ∧
    normalize_transaction_amount 5 AccountType.chequing.value (some "Groceries") = 5 :=
  ⟨((claim_C1 (-7) .credit (some "credit payment")).1 (by decide)).1 (by decide),
   ((claim_C1 5 .loan (some "Groceries")).1 (by decide)).2 (by decide),
   (claim_C1 5 .chequing (some "Groceries")).2 (by decide)⟩

/-- C2: classification never tags income and expense together, and a transfer
carries no other tag. -/
theorem claim_C2 (txn : Transaction) (account_type_value : String) :
    ¬((classify_transaction txn account_type_value).counts_income = true ∧
      (classify_transaction txn account_type_value).counts_expense = true) ∧
    ((classify_transaction txn account_type_value).is_transfer = true →
      (classify_transaction txn account_type_value).counts_income = false ∧
      (classify_transaction txn account_type_value).counts_expense = false ∧
      (classify_transaction txn account_type_value).counts_invested = false) := by
  unfold classify_transaction
  dsimp only
  split_ifs <;> simp

/-- C2 witness: a concrete transfer transaction on a cash account. -/
theorem claim_C2_witness :
    (classify_transaction ⟨some 100, some "Account Transfer"⟩ "chequing").is_transfer = true ∧
    ((classify_transaction ⟨some 100, some "Account Transfer"⟩ "chequing").counts_income = false ∧
     (classify_transaction ⟨some 100, some "Account Transfer"⟩ "chequing").counts_expense = false ∧
     (classify_transaction ⟨some 100, some "Account Transfer"⟩ "chequing").counts_invested = false) :=
  ⟨by decide, (claim_C2 ⟨some 100, some "Account Transfer"⟩ "chequing").2 (by decide)⟩

/-- C3: the aggregate satisfies `net_flow = income + expenses - invested`,
`savings_rate = net_flow / income` when income is positive and `0` otherwise;
and the spec's three-transaction scenario yields
`(2000, -500, 300, 1200, 0.6)` (`0.6 = 3/5`). -/
theorem claim_C3 :
    (∀ rows : List (Transaction × String),
      (get_transaction_summary rows).net_flow =
        (get_transaction_summary rows).total_income +
        (get_transaction_summary rows).total_expenses -
        (get_transaction_summary rows).total_invested ∧
      (get_transaction_summary rows).savings_rate =
        (if 0 < (get_transaction_summary rows).total_income then
          (get_transaction_summary rows).net_flow /
            (get_transaction_summary rows).total_income
         else 0)) ∧
    get_transaction_summary
        [(⟨some 2000, none⟩, "chequing"), (⟨some (-500), none⟩, "chequing"),
         (⟨some 300, none⟩, "investment")] =
      ⟨2000, -500, 300, 1200, 3/5⟩ := by
  refine ⟨fun rows => ⟨rfl, rfl⟩, ?_⟩
  have h1 : classify_transaction ⟨some 2000, none⟩ "chequing" =
      { amount := 2000, counts_income := true } := by decide
  have h2 : classify_transaction ⟨some (-500), none⟩ "chequing" =
      { amount := -500, counts_expense := true } := by decide
  have h3 : classify_transaction ⟨some 300, none⟩ "investment" =
      { amount := 300, counts_invested := true } := by decide
  have htot : calculate_transaction_totals
      [(⟨some 2000, none⟩, "chequing"), (⟨some (-500), none⟩, "chequing"),
       (⟨some 300, none⟩, "investment")] = (2000, -500, 300) := by
    simp only [calculate_transaction_totals, List.foldl_cons, List.foldl_nil, h1, h2, h3]
    norm_num
  simp only [get_transaction_summary, htot]
  norm_num

/-! ## Description normalizer (`src/app/text_utils.py`) -/

def STOPWORDS : List String :=
  ["pos", "visa", "debit", "credit", "purchase", "auth", "card",
   "transaction", "withdrawal", "deposit", "online", "transfer"]

def STOPWORDS_L : List (List Char) := STOPWORDS.map String.data

/-- `re.sub(r"\d{2,}", " ", ·)`: replace every maximal run of two or more digits
with one space.  The Boolean argument records being inside a replaced run. -/
def subDigAux : Bool → List Char → List Char
  | _, [] => []
  | inRun, c :: rest =>
    if isPyDigit c then
      if inRun then subDigAux true rest
      else
        match rest with
        | [] => [c]
        | d :: _ =>
          if isPyDigit d then ' ' :: subDigAux true rest
          else c :: subDigAux false rest
    else c :: subDigAux false rest

def subDigitRuns (l : List Char) : List Char := subDigAux false l

/-- `re.sub(r"\s+", " ", ·)`: replace every maximal whitespace run with one space. -/
def subSpaceAux : Bool → List Char → List Char
  | _, [] => []
  | inRun, c :: rest =>
    if pyIsSpace c then
      if inRun then subSpaceAux true rest
      else ' ' :: subSpaceAux true rest
    else c :: subSpaceAux false rest

def subSpaceRuns (l : List Char) : List Char := subSpaceAux false l

/-- Python `str.split(sep)` for a single-character separator. -/
def splitChar (sep : Char) : List Char → List (List Char)
  | [] => [[]]
  | c :: rest =>
    if c = sep then [] :: splitChar sep rest
    else
      match splitChar sep rest with
      | [] => [[c]]
      | h :: t => (c :: h) :: t

/-- Python `sep.join` for a single-character separator. -/
def joinSep (sep : Char) : List (List Char) → List Char
  | [] => []
  | [t] => t
  | t :: ts => t ++ sep :: joinSep sep ts

/-- The text pipeline of `normalize_description` before tokenization:
lowercase, turn `;`/`,` into spaces, then apply the two noise patterns in order. -/
def descPre (l : List Char) : List Char :=
  subSpaceRuns (subDigitRuns (swapCharL (swapCharL (l.map lowerChar) ';' ' ') ',' ' '))

/-- Tokens of `normalize_description`: split on single spaces, drop empty tokens
and stopwords. -/
def descTokens (l : List Char) : List (List Char) :=
  (splitChar ' ' (descPre l)).filter fun t => decide (t ≠ []) && !(decide (t ∈ STOPWORDS_L))

/-- `normalize_description` from text_utils.py. -/
def normalize_description (text : String) : String :=
  ⟨stripL (joinSep ' ' (descTokens text.data))⟩

/-! ## Override store (`src/app/category_overrides.py`)

The persisted JSON document is modelled as an association list with Python
`dict` get/set/pop semantics. -/

def dictGet (d : List (String × String)) (k : String) : Option String :=
  (d.find? (fun p => p.1 == k)).map (·.2)

/-- `overrides[k] = v`. -/
def dictSet (d : List (String × String)) (k v : String) : List (String × String) :=
  (k, v) :: d.filter (fun p => p.1 != k)

/-- `overrides.pop(k, None)`. -/
def dictPop (d : List (String × String)) (k : String) : List (String × String) :=
  d.filter (fun p => p.1 != k)

/-- `lookup_override` from category_overrides.py, with the loaded store explicit. -/
def lookup_override (store : List (String × String)) (description : String) :
    Option String :=
  let normalized := normalize_description description
  if normalized = "" then none
  else dictGet store normalized

/-- `record_override` from category_overrides.py, with the loaded store explicit. -/
def record_override (store : List (String × String)) (description : Option String)
    (category : Option String) : List (String × String) :=
  let normalized := normalize_description (description.getD "")
  if normalized = "" then store
  else if truthyStr category then dictSet store normalized (category.getD "")
  else dictPop store normalized

/-! ## Categorization flow (`src/app/categorization.py`)

`SmartCategorizer.predict` scores with a persisted sklearn model; it is taken
as an opaque function argument here.  The override store appears as an explicit
state argument so that the (non-)dependence of the flow on it can be stated;
the traced call graph of `categorize_transaction`/`categorize_with_details`
contains no call to `lookup_override`, which the embedding reflects. -/

structure CalDate where
  year : Nat
  month : Nat
  day : Nat
deriving DecidableEq, Repr

structure PredictionResult where
  category : Option String
  confidence : Option ℚ
  source : String
  top_categories : List (String × ℚ)
  normalized_description : String
deriving DecidableEq, Repr

def CATEGORIZATION_RULES : List (String × List String) :=
  [("Groceries", ["supermarket", "grocery", "wal-mart", "costco"]),
   ("Restaurants", ["restaurant", "cafe", "food", "mcdo", "coffee"]),
   ("Transportation", ["uber", "taxi", "gas", "parking", "lyft"]),
   ("Shopping", ["amzn", "store", "shop", "outlet", "mall"]),
   ("Health", ["pharmacy", "doctor", "hospital", "clinic"]),
   ("Entertainment", ["cinema", "movies", "concert", "spotify", "netflix"]),
   ("Utilities", ["electricity", "water", "internet", "phone", "hydro"]),
   ("Rent", ["rent"]),
   ("Income", ["salary", "payroll", "standard aero", "paycheque"]),
   ("Investment", ["brokerage", "investments", "investment", "inv", "ppp", "tfsa", "rrsp"]),
   ("Credit Payment", ["payment", "thank", "you", "received"])]

/-- `_fallback_rule` from categorization.py. -/
def fallback_rule (description : String) : Option String :=
  let lowered := pyLower description
  (CATEGORIZATION_RULES.find?
    (fun rule => rule.2.any (fun keyword => containsSub keyword lowered))).map (·.1)

abbrev PredictFun :=
  String → Option ℚ → Option CalDate → Option String → PredictionResult

/-- `categorize_transaction` from categorization.py: model prediction, then
keyword fallback.  The override store is never consulted. -/
def categorize_transaction (predict : PredictFun) (_store : List (String × String))
    (description : String) (amount : Option ℚ) (date_value : Option CalDate)
    (account_type : Option String) : Option String :=
  let prediction := predict description amount date_value account_type
  if truthyStr prediction.category then prediction.category
  else fallback_rule description

/-- `categorize_with_details` from categorization.py. -/
def categorize_with_details (predict : PredictFun) (_store : List (String × String))
    (description : String) (amount : Option ℚ) (date_value : Option CalDate)
    (account_type : Option String) : PredictionResult :=
  let prediction := predict description amount date_value account_type
  if prediction.category = none then
    let fallback := fallback_rule description
    if truthyStr fallback then
      { category := fallback, confidence := none, source := "rules",
        top_categories := [], normalized_description := prediction.normalized_description }
    else prediction
  else prediction

/-! ## Claims C7, C9, C10 -/

theorem canonicalize_category_some (s : String) :
    canonicalize_category (some s) =
      (if pyStrip s = "" then none
       else if pyLower (pyStrip s) ∈ TRANSFER_CATEGORY_ALIASES then
         some ACCOUNT_TRANSFER_CATEGORY
       else if pyLower (pyStrip s) ∈ INVESTMENT_CATEGORY_ALIASES
           ∨ INVESTMENT_NORMALIZED.isPrefixOf (pyLower (pyStrip s)) then
         some INVESTMENT_CATEGORY
       else some (pyStrip s)) := rfl

/-- C7: `canonicalize_category` is idempotent. -/
theorem claim_C7 (x : Option String) :
    canonicalize_category (canonicalize_category x) = canonicalize_category x := by
  rcases canonicalize_category_cases x with h | h | h | ⟨t, h, hst, hne, h1, h2, h3⟩
  · rw [h]; rfl
  · rw [h]; decide
  · rw [h]; decide
  · rw [h, canonicalize_category_some, hst, if_neg hne, if_neg h1,
      if_neg (by simp [h2, h3])]

/-- C9: the categorization flow is independent of the override store contents —
`lookup_override` is never called, so any two stores give identical results. -/
theorem claim_C9 (predict : PredictFun) (description : String) (amount : Option ℚ)
    (date_value : Option CalDate) (account_type : Option String)
    (store1 store2 : List (String × String)) :
    categorize_transaction predict store1 description amount date_value account_type =
      categorize_transaction predict store2 description amount date_value account_type ∧
    categorize_with_details predict store1 description amount date_value account_type =
      categorize_with_details predict store2 description amount date_value account_type :=
  ⟨rfl, rfl⟩

theorem find?_filter_ne_none (d : List (String × String)) (k : String) :
    (d.filter (fun p => p.1 != k)).find? (fun p => p.1 == k) = none := by
  rw [List.find?_eq_none]
  intro p hp
  have hmem := List.of_mem_filter hp
  simpa using hmem

/-- C10: the override store round-trips — after recording a non-empty category it
is looked up verbatim; recording `none` removes the entry; an empty normalized
description leaves the store untouched and never matches a lookup. -/
theorem claim_C10 (store : List (String × String)) (description : String) (c : String) :
    (normalize_description description ≠ "" →
      (c ≠ "" →
        lookup_override (record_override store (some description) (some c)) description =
          some c) ∧
      lookup_override (record_override store (some description) none) description = none) ∧
    (normalize_description description = "" →
      record_override store (some description) (some c) = store ∧
      lookup_override store description = none) := by
  constructor
  · intro hne
    constructor
    · intro hc
      unfold record_override lookup_override
      rw [show (some description).getD "" = description from rfl]
      rw [if_neg hne, if_neg hne, if_pos (show truthyStr (some c) = true by simpa [truthyStr] using hc)]
      unfold dictGet dictSet
      rw [List.find?_cons_of_pos _ (by simp)]
      rfl
    · unfold record_override lookup_override
      rw [show (some description).getD "" = description from rfl]
      rw [if_neg hne, if_neg hne,
        if_neg (show ¬truthyStr (none : Option String) = true by simp [truthyStr])]
      unfold dictGet dictPop
      rw [find?_filter_ne_none]
      rfl
  · intro he
    constructor
    · unfold record_override
      rw [show (some description).getD "" = description from rfl, if_pos he]
    · unfold lookup_override
      rw [if_pos he]

/-- C10 witness: a concrete round trip on an empty store, plus a description whose
normalization is empty (pure digits and stopwords). -/
theorem claim_C10_witness :
    (lookup_override (record_override [] (some "COFFEE SHOP 12345") (some "Restaurants"))
        "COFFEE SHOP 12345" = some "Restaurants" ∧
     lookup_override (record_override
        (record_override [] (some "COFFEE SHOP 12345") (some "Restaurants"))
        (some "COFFEE SHOP 12345") none) "COFFEE SHOP 12345" = none) ∧
    (record_override [] (some "4711 POS") (some "Restaurants") = [] ∧
     lookup_override [] "4711 POS" = none) := by
  constructor
  · constructor
    · exact ((claim_C10 [] "COFFEE SHOP 12345" "Restaurants").1 (by decide)).1 (by decide)
    · exact ((claim_C10 (record_override [] (some "COFFEE SHOP 12345") (some "Restaurants"))
        "COFFEE SHOP 12345" "Restaurants").1 (by decide)).2
  · exact (claim_C10 [] "4711 POS" "Restaurants").2 (by decide)

/-! ## Numeric and date token models

`float()` / `pd.to_numeric(errors="coerce")` / `pd.to_datetime(errors="coerce")`
are runtime-library functions, not code of this repository; the statement-parsing
definitions below take them as function arguments.  For concrete witnesses the
two models below implement the behaviour of those library calls on the plain
decimal literals and `MM/DD/YY` slash dates appearing in the spec's examples. -/

def natOfDigits (l : List Char) : Nat :=
  l.foldl (fun acc c => acc * 10 + (c.toNat - '0'.toNat)) 0

/-- Model of numeric-literal parsing (`float(text)`, `pd.to_numeric`) restricted
to optionally signed plain decimal strings. -/
def parseDecimal (s : String) : Option ℚ :=
  let core : List Char → Option ℚ := fun l =>
    match splitChar '.' l with
    | [ip] =>
      if ip ≠ [] ∧ ip.all isPyDigit then some (natOfDigits ip) else none
    | [ip, fp] =>
      if ip ++ fp ≠ [] ∧ ip.all isPyDigit ∧ fp.all isPyDigit then
        some ((natOfDigits ip : ℚ) + (natOfDigits fp : ℚ) / (10 : ℚ) ^ fp.length)
      else none
    | _ => none
  match s.data with
  | '-' :: rest => (core rest).map (fun q => -q)
  | '+' :: rest => core rest
  | l => core l

/-- Model of `pd.to_datetime(errors="coerce")` restricted to `MM/DD/YY[YY]`
slash dates (two-digit years resolve to 2000+YY). -/
def parseSlashDate (s : String) : Option CalDate :=
  match splitChar '/' s.data with
  | [m, d, y] =>
    if m ≠ [] ∧ m.all isPyDigit ∧ d ≠ [] ∧ d.all isPyDigit ∧ y ≠ [] ∧ y.all isPyDigit then
      let year := natOfDigits y
      some ⟨if year < 100 then 2000 + year else year, natOfDigits m, natOfDigits d⟩
    else none
  | _ => none

/-! ## Headerless CSV fallback (`try_statement_format` in routers/uploads.py) -/

structure CsvRow where
  date : CalDate
  description : String
  amount : ℚ
  balance : Option ℚ
deriving DecidableEq, Repr

/-- `df.iloc[:, i]` cell access on one row. -/
def cellAt (row : List String) (i : Nat) : String := row.getD i ""

/-- `try_statement_format` from routers/uploads.py.  `toDate`/`toNum` stand for
the pandas coercions, `w` for `df.shape[1]`, `df` for the parsed rows.  A row is
dropped when its date fails to coerce or its amount is not numeric; with five or
more columns the amount is `deposits - withdrawals` with failed coercions
defaulted to zero, with exactly four columns the amount is column 2 coerced. -/
def try_statement_format (toDate : String → Option CalDate) (toNum : String → Option ℚ)
    (w : Nat) (df : List (List String)) : Option (List CsvRow) :=
  if w < 4 then none
  else
    some (df.filterMap (fun row =>
      let dateOpt := toDate (cellAt row 0)
      let description := pyStrip (cellAt row 1)
      let amountOpt : Option ℚ :=
        if 5 ≤ w then
          some ((toNum (cellAt row 3)).getD 0 - (toNum (cellAt row 2)).getD 0)
        else toNum (cellAt row 2)
      let balanceOpt : Option ℚ := if 5 ≤ w then toNum (cellAt row 4) else none
      match dateOpt, amountOpt with
      | some d, some a => some ⟨d, description, a, balanceOpt⟩
      | _, _ => none))

/-! ## Amount cleaning (`_clean_amount` in services/pdf_ingestion.py) -/

/-- Python `str.startswith`. -/
def pyStartsWith (s pre : String) : Bool := pre.data.isPrefixOf s.data

/-- Python `str.endswith`. -/
def pyEndsWith (s suf : String) : Bool := suf.data.isSuffixOf s.data

/-- The parenthesized-negative test of `_clean_amount`. -/
def parenFlag (text : String) : Bool := pyStartsWith text "(" && pyEndsWith text ")"

/-- `text[1:-1]` when parenthesized. -/
def innerText (text : String) : String :=
  if parenFlag text then ⟨(text.data.drop 1).dropLast⟩ else text

/-- The `$`/`,`/space removal and Unicode-minus replacement of `_clean_amount`. -/
def cleanedAmountText (text : String) : String :=
  swapChar (removeChar (removeChar (removeChar (innerText text) '$') ',') ' ') '−' '-'

/-- `_clean_amount` from services/pdf_ingestion.py on string/None input (the
`isinstance(value, (int, float))` branch is the identity on numbers and is not
modelled).  `pyFloat` stands for Python's `float()`. -/
def clean_amount (pyFloat : String → Option ℚ) (value : Option String) : Option ℚ :=
  match value with
  | none => none
  | some v =>
    let text := pyStrip v
    if text = "" then none
    else
      let negative := parenFlag text
      let text2 := cleanedAmountText text
      if text2 = "" then none
      else
        match pyFloat text2 with
        | none => none
        | some number => some (if negative || decide (number < 0) then -number else number)

/-! ### Concrete evaluations of the numeric models -/

theorem parseDecimal_5000 : parseDecimal "50.00" = some 50 := by
  rw [show parseDecimal "50.00" =
      some ((natOfDigits ['5','0'] : ℚ)
        + (natOfDigits ['0','0'] : ℚ) / (10 : ℚ) ^ (2 : ℕ)) from rfl,
    show natOfDigits ['5','0'] = 50 from by decide,
    show natOfDigits ['0','0'] = 0 from by decide]
  norm_num

theorem parseDecimal_000 : parseDecimal "0.00" = some 0 := by
  rw [show parseDecimal "0.00" =
      some ((natOfDigits ['0'] : ℚ)
        + (natOfDigits ['0','0'] : ℚ) / (10 : ℚ) ^ (2 : ℕ)) from rfl,
    show natOfDigits ['0'] = 0 from by decide,
    show natOfDigits ['0','0'] = 0 from by decide]
  norm_num

theorem parseDecimal_45000 : parseDecimal "450.00" = some 450 := by
  rw [show parseDecimal "450.00" =
      some ((natOfDigits ['4','5','0'] : ℚ)
        + (natOfDigits ['0','0'] : ℚ) / (10 : ℚ) ^ (2 : ℕ)) from rfl,
    show natOfDigits ['4','5','0'] = 450 from by decide,
    show natOfDigits ['0','0'] = 0 from by decide]
  norm_num

/-- The spec's 5-column headerless example row, evaluated. -/
theorem try_statement_format_example :
    try_statement_format parseSlashDate parseDecimal 5
        [["01/15/24", "GROCERY STORE", "50.00", "0.00", "450.00"]] =
      some [⟨⟨2024, 1, 15⟩, "GROCERY STORE", -50, some 450⟩] := by
  have hd : parseSlashDate "01/15/24" = some ⟨2024, 1, 15⟩ := by decide
  have hs : pyStrip "GROCERY STORE" = "GROCERY STORE" := by decide
  unfold try_statement_format
  rw [if_neg (by omega)]
  simp only [List.filterMap_cons, List.filterMap_nil]
  dsimp only [cellAt, List.getD, List.get?, Option.getD]
  simp only [hd, hs, parseDecimal_5000, parseDecimal_000, parseDecimal_45000]
  norm_num

/-! ## Claims C4 and C5 -/

/-- C4 counterexample: in the 4-column headerless layout the surviving row's
amount is column 2 coerced directly (+50 for the spec's example row truncated to
four columns), not deposit − withdrawal (which would be −50). -/
theorem claim_C4_counterexample :
    try_statement_format parseSlashDate parseDecimal 4
        [["01/15/24", "GROCERY STORE", "50.00", "0.00"]] =
      some [⟨⟨2024, 1, 15⟩, "GROCERY STORE", 50, none⟩] ∧
    (parseDecimal (cellAt ["01/15/24", "GROCERY STORE", "50.00", "0.00"] 3)).getD 0 -
      (parseDecimal (cellAt ["01/15/24", "GROCERY STORE", "50.00", "0.00"] 2)).getD 0 = -50 ∧
    (50 : ℚ) ≠ -50 := by
  refine ⟨?_, ?_, by norm_num⟩
  · have hd : parseSlashDate "01/15/24" = some ⟨2024, 1, 15⟩ := by decide
    have hs : pyStrip "GROCERY STORE" = "GROCERY STORE" := by decide
    unfold try_statement_format
    rw [if_neg (by omega)]
    simp only [List.filterMap_cons, List.filterMap_nil]
    dsimp only [cellAt, List.getD, List.get?, Option.getD]
    simp only [if_neg (show ¬(5 : ℕ) ≤ 4 by omega), hd, hs, parseDecimal_5000]
  · dsimp only [cellAt, List.getD, List.get?, Option.getD]
    simp only [parseDecimal_5000, parseDecimal_000]
    norm_num

/-- C4 amended: the deposit−withdrawal rule holds for the 5-or-more-column
layout (with unparseable components defaulted to zero and column 4 as balance);
with exactly four columns the amount is column 2 coerced directly.  The spec's
5-column example parses to one row with amount −50.00 and balance 450.00. -/
theorem claim_C4_amended :
    (∀ (toDate : String → Option CalDate) (toNum : String → Option ℚ) (w : Nat)
        (df : List (List String)) (rows : List CsvRow),
      try_statement_format toDate toNum w df = some rows → 5 ≤ w →
      ∀ r ∈ rows, ∃ row ∈ df,
        r.amount = (toNum (cellAt row 3)).getD 0 - (toNum (cellAt row 2)).getD 0 ∧
        r.balance = toNum (cellAt row 4)) ∧
    (∀ (toDate : String → Option CalDate) (toNum : String → Option ℚ)
        (df : List (List String)) (rows : List CsvRow),
      try_statement_format toDate toNum 4 df = some rows →
      ∀ r ∈ rows, ∃ row ∈ df, toNum (cellAt row 2) = some r.amount) ∧
    try_statement_format parseSlashDate parseDecimal 5
        [["01/15/24", "GROCERY STORE", "50.00", "0.00", "450.00"]] =
      some [⟨⟨2024, 1, 15⟩, "GROCERY STORE", -50, some 450⟩] := by
  refine ⟨?_, ?_, try_statement_format_example⟩
  · intro toDate toNum w df rows hps hw r hr
    unfold try_statement_format at hps
    rw [if_neg (by omega)] at hps
    injection hps with hps
    subst hps
    obtain ⟨row, hrow, hf⟩ := List.mem_filterMap.mp hr
    refine ⟨row, hrow, ?_⟩
    dsimp only at hf
    simp only [if_pos hw] at hf
    cases hd : toDate (cellAt row 0) with
    | none => rw [hd] at hf; simp at hf
    | some d =>
      rw [hd] at hf
      dsimp only at hf
      cases hf
      exact ⟨rfl, rfl⟩
  · intro toDate toNum df rows hps r hr
    unfold try_statement_format at hps
    rw [if_neg (by omega)] at hps
    injection hps with hps
    subst hps
    obtain ⟨row, hrow, hf⟩ := List.mem_filterMap.mp hr
    refine ⟨row, hrow, ?_⟩
    dsimp only at hf
    rw [if_neg (by omega)] at hf
    cases hd : toDate (cellAt row 0) with
    | none => rw [hd] at hf; simp at hf
    | some d =>
      rw [hd] at hf
      cases ha : toNum (cellAt row 2) with
      | none => rw [ha] at hf; simp at hf
      | some a =>
        rw [ha] at hf
        dsimp only at hf
        cases hf
        rfl

/-- C4 witness: the amended deposit−withdrawal property instantiated at the
spec's concrete 5-column row. -/
theorem claim_C4_witness :
    ∃ row ∈ [["01/15/24", "GROCERY STORE", "50.00", "0.00", "450.00"]],
      (⟨⟨2024, 1, 15⟩, "GROCERY STORE", -50, some 450⟩ : CsvRow).amount =
        (parseDecimal (cellAt row 3)).getD 0 - (parseDecimal (cellAt row 2)).getD 0 ∧
      (⟨⟨2024, 1, 15⟩, "GROCERY STORE", -50, some 450⟩ : CsvRow).balance =
        parseDecimal (cellAt row 4) :=
  claim_C4_amended.1 parseSlashDate parseDecimal 5
    [["01/15/24", "GROCERY STORE", "50.00", "0.00", "450.00"]]
    [⟨⟨2024, 1, 15⟩, "GROCERY STORE", -50, some 450⟩]
    try_statement_format_example (by omega)
    ⟨⟨2024, 1, 15⟩, "GROCERY STORE", -50, some 450⟩ (by simp)

/-- C5 counterexample: a parenthesized numeric string whose inner text carries
its own minus marker cleans to a positive value (+5), so "for any parenthesized
numeric string the result is negative" fails on `_clean_amount`. -/
theorem claim_C5_counterexample :
    clean_amount parseDecimal (some "(-5)") = some 5 ∧ ¬((5 : ℚ) < 0) := by
  refine ⟨?_, by norm_num⟩
  have h1 : pyStrip "(-5)" = "(-5)" := by decide
  have h2 : parenFlag "(-5)" = true := by decide
  have h3 : cleanedAmountText "(-5)" = "-5" := by decide
  have h4 : parseDecimal "-5" = some (-5) := by decide
  unfold clean_amount
  dsimp only
  simp only [h1, h2, h3, h4]
  simp

/-- C5 amended: `_clean_amount` returns none for empty or non-numeric input and
never raises (it is total); for a parenthesized numeric string the result is the
negation of the inner parsed value — negative when the inner value is positive,
positive when the inner text carries its own minus marker (the dual markers
cancel); `clean_amount("($1,234.56)") = -1234.56`. -/
theorem claim_C5_amended :
    (∀ pf : String → Option ℚ,
      clean_amount pf (some "") = none ∧ clean_amount pf none = none) ∧
    (∀ (pf : String → Option ℚ) (s : String) (n : ℚ),
      pyStrip s = s → parenFlag s = true → cleanedAmountText s ≠ "" →
      pf (cleanedAmountText s) = some n →
      clean_amount pf (some s) = some (-n)) ∧
    (∀ (pf : String → Option ℚ) (s : String),
      pf (cleanedAmountText (pyStrip s)) = none → clean_amount pf (some s) = none) ∧
    clean_amount parseDecimal (some "($1,234.56)") = some (-(123456 / 100 : ℚ)) := by
  refine ⟨fun pf => ⟨rfl, rfl⟩, ?_, ?_, ?_⟩
  · intro pf s n hst hpar hne hpf
    have hs' : s ≠ "" := by
      intro h
      rw [h] at hpar
      exact absurd hpar (by decide)
    unfold clean_amount
    dsimp only
    rw [hst, if_neg hs', if_neg hne, hpf]
    simp [hpar]
  · intro pf s h
    unfold clean_amount
    dsimp only
    by_cases h0 : pyStrip s = ""
    · rw [if_pos h0]
    · rw [if_neg h0]
      by_cases h1 : cleanedAmountText (pyStrip s) = ""
      · rw [if_pos h1]
      · rw [if_neg h1, h]
  · have h1 : pyStrip "($1,234.56)" = "($1,234.56)" := by decide
    have h2 : parenFlag "($1,234.56)" = true := by decide
    have h3 : cleanedAmountText "($1,234.56)" = "1234.56" := by decide
    have h4 : parseDecimal "1234.56" =
        some ((natOfDigits ['1','2','3','4'] : ℚ)
          + (natOfDigits ['5','6'] : ℚ) / (10 : ℚ) ^ (2 : ℕ)) := rfl
    have hn1 : natOfDigits ['1','2','3','4'] = 1234 := by decide
    have hn2 : natOfDigits ['5','6'] = 56 := by decide
    unfold clean_amount
    dsimp only
    simp only [h1, h2, h3, h4, hn1, hn2]
    norm_num
    exact ⟨by decide, fun h => absurd h (by decide)⟩

/-- C5 witness: the parenthesized-negation rule at a concrete input. -/
theorem claim_C5_witness :
    clean_amount parseDecimal (some "(2)") = some (-(2 : ℚ)) :=
  claim_C5_amended.2.1 parseDecimal "(2)" 2 (by decide) (by decide) (by decide) (by decide)

/-! ## PDF Table Strategy (`TableStrategy._extract_from_table` in
services/pdf_ingestion.py)

`_parse_pdf_date_token token fallback_year` mixes repository logic with
`pd.to_datetime`; the strategy below takes the resulting token → date function
as the argument `dateParse`, and Python's `float()` as `pyFloat` (threaded into
`_clean_amount`). -/

structure TransactionRow where
  date : CalDate
  description : String
  amount : ℚ
  balance : Option ℚ := none
deriving DecidableEq, Repr

def HEADER_KEYWORDS : List String :=
  ["description", "withdrawal", "deposit", "date", "balance", "transaction"]

/-- `_split_cell`: split a cell on newlines into stripped non-empty parts. -/
def split_cell (cell : Option String) : List String :=
  match cell with
  | none => []
  | some c =>
    ((splitChar '\n' (swapCharL c.data '\r' '\n')).map
      (fun part => (⟨stripL part⟩ : String))).filter (fun part => part ≠ "")

/-- `TableStrategy._find_index`. -/
def find_index (header : List String) (keywords : List String) : Option Nat :=
  if keywords = [] then none
  else header.findIdx? (fun cell => keywords.any (fun keyword => containsSub keyword cell))

/-- `TableStrategy._value_at`. -/
def value_at (split_cols : List (List String)) (column_idx : Option Nat)
    (row_idx : Nat) : String :=
  match column_idx with
  | none => ""
  | some ci => (split_cols.getD ci []).getD row_idx ""

/-- Python float truthiness of an `Optional` number (`if debit:`). -/
def truthyNum : Option ℚ → Bool
  | none => false
  | some x => x != 0

/-- The body of the per-sub-row loop of `TableStrategy._extract_from_table`
(lines 174–207 of pdf_ingestion.py): read the idx-th sub-value of each relevant
column and emit a row when the checks pass. -/
def emit_row (dateParse : String → Option CalDate) (pyFloat : String → Option ℚ)
    (desc_idx : Nat) (withdraw_idx deposit_idx date_idx balance_idx : Option Nat)
    (split_cols : List (List String)) (idx : Nat) : Option TransactionRow :=
  let description := value_at split_cols (some desc_idx) idx
  let withdrawals := value_at split_cols withdraw_idx idx
  let deposits := value_at split_cols deposit_idx idx
  let date_token := value_at split_cols date_idx idx
  if description = "" ∧ withdrawals = "" ∧ deposits = "" then none
  else if pyStartsWith (pyUpper description) "STARTING"
      ∨ pyStartsWith (pyUpper description) "ENDING" then none
  else
    let parsed_date := dateParse date_token
    let debit := clean_amount pyFloat (some withdrawals)
    let credit := clean_amount pyFloat (some deposits)
    let amount : Option ℚ :=
      if truthyNum debit then some (-|debit.getD 0|)
      else if truthyNum credit then some |credit.getD 0|
      else none
    match parsed_date, amount with
    | some d, some a =>
      some ⟨d, description, a,
        match balance_idx with
        | some _ => clean_amount pyFloat (some (value_at split_cols balance_idx idx))
        | none => none⟩
    | _, _ => none

/-- `header = [((cell or "").strip().lower()) for cell in table[0]]`. -/
def table_header (headerRow : List (Option String)) : List String :=
  headerRow.map (fun cell => pyLower (pyStrip (cell.getD "")))

/-- `desc_idx = self._find_index(header, [...]) or 0`. -/
def resolve_desc_idx (header : List String) : Nat :=
  (find_index header ["description", "transaction", "details"]).getD 0

/-- `withdraw_idx`, with its positional fallback to column 1. -/
def resolve_withdraw_idx (header : List String) : Option Nat :=
  match find_index header ["withdraw", "debit"] with
  | some i => some i
  | none => if 1 < header.length then some 1 else none

/-- `deposit_idx`, with its positional fallback to column 2. -/
def resolve_deposit_idx (header : List String) : Option Nat :=
  match find_index header ["deposit", "credit"] with
  | some i => some i
  | none => if 2 < header.length then some 2 else none

/-- `date_idx`, with its positional fallback to column 3. -/
def resolve_date_idx (header : List String) : Option Nat :=
  match find_index header ["date"] with
  | some i => some i
  | none => if 3 < header.length then some 3 else none

/-- `balance_idx`, with its positional fallback to column 4. -/
def resolve_balance_idx (header : List String) : Option Nat :=
  match find_index header ["balance"] with
  | some i => some i
  | none => if 4 < header.length then some 4 else none

/-- `TableStrategy._extract_from_table`. -/
def extract_from_table (dateParse : String → Option CalDate)
    (pyFloat : String → Option ℚ) (table : List (List (Option String))) :
    List TransactionRow :=
  match table with
  | [] => []
  | headerRow :: body =>
    let header := table_header headerRow
    if HEADER_KEYWORDS.any (fun keyword => header.any (fun cell => containsSub keyword cell))
    then
      body.flatMap (fun raw_row =>
        let split_cols := raw_row.map split_cell
        let max_len := (split_cols.map List.length).foldr max 0
        (List.range max_len).filterMap
          (emit_row dateParse pyFloat (resolve_desc_idx header) (resolve_withdraw_idx header)
            (resolve_deposit_idx header) (resolve_date_idx header) (resolve_balance_idx header)
            split_cols))
    else []

/-! ### Concrete table evaluation for C6 -/

theorem parseDecimal_1000x : parseDecimal "10.00" = some 10 := by
  rw [show parseDecimal "10.00" =
      some ((natOfDigits ['1','0'] : ℚ)
        + (natOfDigits ['0','0'] : ℚ) / (10 : ℚ) ^ (2 : ℕ)) from rfl,
    show natOfDigits ['1','0'] = 10 from by decide,
    show natOfDigits ['0','0'] = 0 from by decide]
  norm_num

theorem clean_amount_000x : clean_amount parseDecimal (some "0.00") = some 0 := by
  unfold clean_amount
  dsimp only
  simp only [show pyStrip "0.00" = "0.00" from by decide,
    show parenFlag "0.00" = false from by decide,
    show cleanedAmountText "0.00" = "0.00" from by decide, parseDecimal_000]
  norm_num
  exact ⟨by decide, fun h => absurd h (by decide)⟩

theorem clean_amount_1000x : clean_amount parseDecimal (some "10.00") = some 10 := by
  unfold clean_amount
  dsimp only
  simp only [show pyStrip "10.00" = "10.00" from by decide,
    show parenFlag "10.00" = false from by decide,
    show cleanedAmountText "10.00" = "10.00" from by decide, parseDecimal_1000x]
  norm_num
  exact ⟨by decide, fun h => absurd h (by decide)⟩

/-- A date parser behaving like `_parse_pdf_date_token` on the one slash-date
token of the demonstration table (such tokens carry an explicit year and parse
via `pd.to_datetime`). -/
def demoDateParse : String → Option CalDate :=
  fun token => if token = "01/15/2024" then some ⟨2024, 1, 15⟩ else none

/-- A table whose data row has an empty description cell, a withdrawal cell
`"0.00"` and a deposit cell `"10.00"`. -/
def demoTable : List (List (Option String)) :=
  [[some "date", some "description", some "withdrawal", some "deposit"],
   [some "01/15/2024", some "", some "0.00", some "10.00"]]

theorem extract_from_table_demo :
    extract_from_table demoDateParse parseDecimal demoTable =
      [⟨⟨2024, 1, 15⟩, "", 10, none⟩] := by
  unfold extract_from_table demoTable
  dsimp only
  rw [show table_header [some "date", some "description", some "withdrawal", some "deposit"] =
      ["date", "description", "withdrawal", "deposit"] from by decide]
  rw [if_pos (by decide)]
  simp only [show resolve_desc_idx ["date", "description", "withdrawal", "deposit"] = 1
      from by decide,
    show resolve_withdraw_idx ["date", "description", "withdrawal", "deposit"] = some 2
      from by decide,
    show resolve_deposit_idx ["date", "description", "withdrawal", "deposit"] = some 3
      from by decide,
    show resolve_date_idx ["date", "description", "withdrawal", "deposit"] = some 0
      from by decide,
    show resolve_balance_idx ["date", "description", "withdrawal", "deposit"] = none
      from by decide]
  simp only [List.flatMap_cons, List.flatMap_nil,
    show ([some "01/15/2024", some "", some "0.00", some "10.00"] :
        List (Option String)).map split_cell =
      [["01/15/2024"], [], ["0.00"], ["10.00"]] from by decide]
  simp only [show (([["01/15/2024"], [], ["0.00"], ["10.00"]] :
      List (List String)).map List.length).foldr max 0 = 1 from by decide]
  rw [show List.range 1 = [0] from by decide]
  simp only [List.filterMap_cons, List.filterMap_nil]
  unfold emit_row
  dsimp only
  have hv1 : value_at [["01/15/2024"], [], ["0.00"], ["10.00"]] (some 1) 0 = "" := by decide
  have hv2 : value_at [["01/15/2024"], [], ["0.00"], ["10.00"]] (some 2) 0 = "0.00" := by decide
  have hv3 : value_at [["01/15/2024"], [], ["0.00"], ["10.00"]] (some 3) 0 = "10.00" := by decide
  have hv0 : value_at [["01/15/2024"], [], ["0.00"], ["10.00"]] (some 0) 0 = "01/15/2024" := by
    decide
  simp only [hv1, hv2, hv3, hv0]
  rw [if_neg (by decide), if_neg (by decide)]
  simp only [demoDateParse, if_pos rfl, clean_amount_000x, clean_amount_1000x]
  rw [show truthyNum (some (0 : ℚ)) = false from by decide]
  simp only [Bool.false_eq_true, if_false]
  rw [show truthyNum (some (10 : ℚ)) = true from by decide]
  norm_num

theorem emit_row_spec
    (dateParse : String → Option CalDate) (pyFloat : String → Option ℚ)
    (desc_idx : Nat) (withdraw_idx deposit_idx date_idx balance_idx : Option Nat)
    (split_cols : List (List String)) (idx : Nat) (r : TransactionRow)
    (h : emit_row dateParse pyFloat desc_idx withdraw_idx deposit_idx date_idx
      balance_idx split_cols idx = some r) :
    r.description = value_at split_cols (some desc_idx) idx ∧
    dateParse (value_at split_cols date_idx idx) = some r.date ∧
    ((truthyNum (clean_amount pyFloat (some (value_at split_cols withdraw_idx idx))) = true ∧
      r.amount =
        -|(clean_amount pyFloat (some (value_at split_cols withdraw_idx idx))).getD 0|) ∨
     (truthyNum (clean_amount pyFloat (some (value_at split_cols withdraw_idx idx))) = false ∧
      truthyNum (clean_amount pyFloat (some (value_at split_cols deposit_idx idx))) = true ∧
      r.amount =
        |(clean_amount pyFloat (some (value_at split_cols deposit_idx idx))).getD 0|)) := by
  unfold emit_row at h
  dsimp only at h
  split at h
  · exact absurd h (by simp)
  · split at h
    · exact absurd h (by simp)
    · cases hd : dateParse (value_at split_cols date_idx idx) with
      | none => rw [hd] at h; simp at h
      | some d =>
        rw [hd] at h
        by_cases hdb :
            truthyNum (clean_amount pyFloat (some (value_at split_cols withdraw_idx idx))) = true
        · rw [if_pos hdb] at h
          dsimp only at h
          cases h
          exact ⟨rfl, rfl, Or.inl ⟨hdb, rfl⟩⟩
        · rw [if_neg hdb] at h
          by_cases hcr :
              truthyNum (clean_amount pyFloat (some (value_at split_cols deposit_idx idx))) = true
          · rw [if_pos hcr] at h
            dsimp only at h
            cases h
            exact ⟨rfl, rfl, Or.inr ⟨by simpa using hdb, hcr, rfl⟩⟩
          · rw [if_neg hcr] at h
            simp at h

/-! ## Claim C6 -/

/-- C6 counterexample: the demonstration table emits a row with an empty
description (the skip fires only when description, withdrawal and deposit are
all empty), and although the withdrawal cell `"0.00"` is present, its parsed
value 0 is falsy, so the amount comes from the deposit (+10) instead of being
`-|withdrawal| = 0`. -/
theorem claim_C6_counterexample :
    extract_from_table demoDateParse parseDecimal demoTable =
      [⟨⟨2024, 1, 15⟩, "", 10, none⟩] ∧
    ¬(∀ r ∈ extract_from_table demoDateParse parseDecimal demoTable,
        r.description ≠ "") ∧
    clean_amount parseDecimal (some "0.00") = some 0 ∧ (10 : ℚ) ≠ -|(0 : ℚ)| := by
  refine ⟨extract_from_table_demo, ?_, clean_amount_000x, by norm_num⟩
  intro hall
  exact hall ⟨⟨2024, 1, 15⟩, "", 10, none⟩ (by rw [extract_from_table_demo]; simp) rfl

/-- C6 amended. Part 1: every row emitted by the table strategy comes from a
body row and a sub-row index such that the emitted description is that row's
cell at the resolved description column (possibly empty), the emitted date is
the parse of that row's cell at the resolved date column, and the amount is
`-|withdrawal|` when that row's withdrawal cell parses to a nonzero (truthy)
value, else `+|deposit|` with the deposit cell parsing truthy. Part 2: a
sub-row is skipped exactly when its description, withdrawal and deposit cells
are all empty, or the description starts with STARTING or ENDING, or its date
cell fails to parse, or neither amount cell parses to a truthy value. -/
theorem claim_C6_amended :
    (∀ (dateParse : String → Option CalDate) (pyFloat : String → Option ℚ)
      (headerRow : List (Option String)) (body : List (List (Option String)))
      (r : TransactionRow),
      r ∈ extract_from_table dateParse pyFloat (headerRow :: body) →
      ∃ raw_row ∈ body, ∃ idx : Nat,
        r.description = value_at (raw_row.map split_cell)
          (some (resolve_desc_idx (table_header headerRow))) idx ∧
        dateParse (value_at (raw_row.map split_cell)
          (resolve_date_idx (table_header headerRow)) idx) = some r.date ∧
        ((truthyNum (clean_amount pyFloat (some (value_at (raw_row.map split_cell)
            (resolve_withdraw_idx (table_header headerRow)) idx))) = true ∧
          r.amount = -|(clean_amount pyFloat (some (value_at (raw_row.map split_cell)
            (resolve_withdraw_idx (table_header headerRow)) idx))).getD 0|) ∨
         (truthyNum (clean_amount pyFloat (some (value_at (raw_row.map split_cell)
            (resolve_withdraw_idx (table_header headerRow)) idx))) = false ∧
          truthyNum (clean_amount pyFloat (some (value_at (raw_row.map split_cell)
            (resolve_deposit_idx (table_header headerRow)) idx))) = true ∧
          r.amount = |(clean_amount pyFloat (some (value_at (raw_row.map split_cell)
            (resolve_deposit_idx (table_header headerRow)) idx))).getD 0|))) ∧
    (∀ (dateParse : String → Option CalDate) (pyFloat : String → Option ℚ)
      (desc_idx : Nat) (withdraw_idx deposit_idx date_idx balance_idx : Option Nat)
      (split_cols : List (List String)) (idx : Nat),
      emit_row dateParse pyFloat desc_idx withdraw_idx deposit_idx date_idx
          balance_idx split_cols idx = none ↔
        (value_at split_cols (some desc_idx) idx = "" ∧
         value_at split_cols withdraw_idx idx = "" ∧
         value_at split_cols deposit_idx idx = "") ∨
        pyStartsWith (pyUpper (value_at split_cols (some desc_idx) idx)) "STARTING" = true ∨
        pyStartsWith (pyUpper (value_at split_cols (some desc_idx) idx)) "ENDING" = true ∨
        dateParse (value_at split_cols date_idx idx) = none ∨
        (truthyNum (clean_amount pyFloat (some (value_at split_cols withdraw_idx idx))) = false ∧
         truthyNum (clean_amount pyFloat (some (value_at split_cols deposit_idx idx))) =
           false)) := by
  constructor
  · intro dateParse pyFloat headerRow body r hr
    unfold extract_from_table at hr
    dsimp only at hr
    split at hr
    · obtain ⟨raw_row, hraw, hr2⟩ := List.mem_flatMap.mp hr
      obtain ⟨idx, hidx, hg⟩ := List.mem_filterMap.mp hr2
      obtain ⟨hdesc, hdate, hamt⟩ := emit_row_spec _ _ _ _ _ _ _ _ _ _ hg
      exact ⟨raw_row, hraw, idx, hdesc, hdate, hamt⟩
    · simp at hr
  · intro dateParse pyFloat desc_idx withdraw_idx deposit_idx date_idx balance_idx split_cols idx
    unfold emit_row
    dsimp only
    by_cases h1 : value_at split_cols (some desc_idx) idx = "" ∧
        value_at split_cols withdraw_idx idx = "" ∧ value_at split_cols deposit_idx idx = ""
    · rw [if_pos h1]
      simp [h1]
    · rw [if_neg h1]
      by_cases h2 : pyStartsWith (pyUpper (value_at split_cols (some desc_idx) idx))
            "STARTING" = true ∨
          pyStartsWith (pyUpper (value_at split_cols (some desc_idx) idx)) "ENDING" = true
      · rw [if_pos h2]
        rcases h2 with h2 | h2 <;> simp [h2]
      · rw [if_neg h2]
        rw [not_or] at h2
        obtain ⟨h2a, h2b⟩ := h2
        cases hd : dateParse (value_at split_cols date_idx idx) with
        | none =>
          by_cases hdb : truthyNum (clean_amount pyFloat
              (some (value_at split_cols withdraw_idx idx))) = true
          · rw [if_pos hdb]
            simp [h1, h2a, h2b, hd]
          · rw [if_neg hdb]
            by_cases hcr : truthyNum (clean_amount pyFloat
                (some (value_at split_cols deposit_idx idx))) = true
            · rw [if_pos hcr]
              simp [h1, h2a, h2b, hd]
            · rw [if_neg hcr]
              simp [h1, h2a, h2b, hd]
        | some d =>
          by_cases hdb : truthyNum (clean_amount pyFloat
              (some (value_at split_cols withdraw_idx idx))) = true
          · rw [if_pos hdb]
            simp [h1, h2a, h2b, hd, hdb]
          · rw [if_neg hdb]
            by_cases hcr : truthyNum (clean_amount pyFloat
                (some (value_at split_cols deposit_idx idx))) = true
            · rw [if_pos hcr]
              rw [Bool.not_eq_true] at hdb
              simp [h1, h2a, h2b, hd, hdb, hcr]
            · rw [if_neg hcr]
              rw [Bool.not_eq_true] at hdb hcr
              simp [h1, h2a, h2b, hd, hdb, hcr]

/-- C6 witness: the per-row emission property, applied at the demonstration
table whose body row has cells 01/15/2024, empty description, 0.00, 10.00. -/
theorem claim_C6_witness :
    ∃ raw_row ∈ [[some "01/15/2024", some "", some "0.00", some "10.00"]], ∃ idx : Nat,
      (⟨⟨2024, 1, 15⟩, "", 10, none⟩ : TransactionRow).description =
        value_at (raw_row.map split_cell)
          (some (resolve_desc_idx (table_header
            [some "date", some "description", some "withdrawal", some "deposit"]))) idx ∧
      demoDateParse (value_at (raw_row.map split_cell)
          (resolve_date_idx (table_header
            [some "date", some "description", some "withdrawal", some "deposit"])) idx) =
        some (⟨⟨2024, 1, 15⟩, "", 10, none⟩ : TransactionRow).date ∧
      ((truthyNum (clean_amount parseDecimal (some (value_at (raw_row.map split_cell)
            (resolve_withdraw_idx (table_header
              [some "date", some "description", some "withdrawal", some "deposit"])) idx))) =
          true ∧
        (⟨⟨2024, 1, 15⟩, "", 10, none⟩ : TransactionRow).amount =
          -|(clean_amount parseDecimal (some (value_at (raw_row.map split_cell)
            (resolve_withdraw_idx (table_header
              [some "date", some "description", some "withdrawal", some "deposit"])) idx))).getD
            0|) ∨
       (truthyNum (clean_amount parseDecimal (some (value_at (raw_row.map split_cell)
            (resolve_withdraw_idx (table_header
              [some "date", some "description", some "withdrawal", some "deposit"])) idx))) =
          false ∧
        truthyNum (clean_amount parseDecimal (some (value_at (raw_row.map split_cell)
            (resolve_deposit_idx (table_header
              [some "date", some "description", some "withdrawal", some "deposit"])) idx))) =
          true ∧
        (⟨⟨2024, 1, 15⟩, "", 10, none⟩ : TransactionRow).amount =
          |(clean_amount parseDecimal (some (value_at (raw_row.map split_cell)
            (resolve_deposit_idx (table_header
              [some "date", some "description", some "withdrawal", some "deposit"])) idx))).getD
            0|)) :=
  claim_C6_amended.1 demoDateParse parseDecimal
    [some "date", some "description", some "withdrawal", some "deposit"]
    [[some "01/15/2024", some "", some "0.00", some "10.00"]]
    ⟨⟨2024, 1, 15⟩, "", 10, none⟩
    (by
      have h := extract_from_table_demo
      rw [show demoTable =
          ([some "date", some "description", some "withdrawal", some "deposit"] ::
            [[some "01/15/2024", some "", some "0.00", some "10.00"]]) from rfl] at h
      rw [h]
      simp)

/-! ### C8 lemma stack part 1: characters and the two noise substitutions -/

theorem lowerChar_lowerChar (c : Char) : lowerChar (lowerChar c) = lowerChar c := by
  cases hf : upperLowerPairs.find? (fun p => p.1 == c) with
  | none =>
    simp [lowerChar, hf]
  | some p =>
    have hp : p ∈ upperLowerPairs := List.mem_of_find?_eq_some hf
    have h1 : lowerChar c = p.2 := by simp [lowerChar, hf]
    rw [h1]
    fin_cases hp <;> decide

/-- Adjacent-digit freedom. -/
def NoAdjDigits (a b : Char) : Prop := ¬(isPyDigit a = true ∧ isPyDigit b = true)

/-- Adjacent-whitespace freedom. -/
def NoAdjWs (a b : Char) : Prop := ¬(pyIsSpace a = true ∧ pyIsSpace b = true)

theorem subDigAux_cons_not_digit {d : Char} {rest : List Char}
    (hd : isPyDigit d = false) (b : Bool) :
    subDigAux b (d :: rest) = d :: subDigAux false rest := by
  cases b <;> simp [subDigAux, hd]

theorem subDigAux_chain (l : List Char) : ∀ b, List.Chain' NoAdjDigits (subDigAux b l) := by
  induction l with
  | nil => intro b; cases b <;> exact List.chain'_nil
  | cons c rest ih =>
    intro b
    by_cases hc : isPyDigit c = true
    · cases b with
      | true => simpa [subDigAux, hc] using ih true
      | false =>
        cases rest with
        | nil => simp [subDigAux, hc]
        | cons d rest2 =>
          by_cases hd : isPyDigit d = true
          · rw [show subDigAux false (c :: d :: rest2) = ' ' :: subDigAux true (d :: rest2) from by
              simp [subDigAux, hc, hd]]
            rw [List.chain'_cons']
            exact ⟨fun y _ => by simp [NoAdjDigits, isPyDigit], ih true⟩
          · rw [show subDigAux false (c :: d :: rest2) = c :: subDigAux false (d :: rest2) from by
              simp [subDigAux, hc, hd]]
            rw [List.chain'_cons']
            refine ⟨?_, ih false⟩
            intro y hy
            rw [subDigAux_cons_not_digit (by simpa using hd) false] at hy
            simp at hy
            rw [← hy]
            simp [NoAdjDigits, hd]
    · rw [subDigAux_cons_not_digit (by simpa using hc) b, List.chain'_cons']
      refine ⟨?_, ih false⟩
      intro y _
      simp [NoAdjDigits, hc]

theorem subDigAux_id {l : List Char} (h : List.Chain' NoAdjDigits l) :
    subDigAux false l = l := by
  induction l with
  | nil => rfl
  | cons c rest ih =>
    rw [List.chain'_cons'] at h
    by_cases hc : isPyDigit c = true
    · cases rest with
      | nil => simp [subDigAux, hc]
      | cons d rest2 =>
        have hd : isPyDigit d = false := by
          have := h.1 d rfl
          simp [NoAdjDigits, hc] at this
          exact this
        rw [show subDigAux false (c :: d :: rest2) = c :: subDigAux false (d :: rest2) from by
          simp [subDigAux, hc, hd]]
        rw [ih h.2]
    · rw [subDigAux_cons_not_digit (by simpa using hc) false, ih h.2]

theorem subDigAux_mem {l : List Char} {c : Char} :
    ∀ b, c ∈ subDigAux b l → c ∈ l ∨ c = ' ' := by
  induction l with
  | nil => intro b h; cases b <;> simp [subDigAux] at h
  | cons a rest ih =>
    intro b h
    by_cases ha : isPyDigit a = true
    · cases b with
      | true =>
        rw [show subDigAux true (a :: rest) = subDigAux true rest from by
          simp [subDigAux, ha]] at h
        rcases ih true h with h2 | h2
        · exact Or.inl (List.mem_cons_of_mem a h2)
        · exact Or.inr h2
      | false =>
        cases rest with
        | nil =>
          simp [subDigAux, ha] at h
          exact Or.inl (by simp [h])
        | cons d rest2 =>
          by_cases hd : isPyDigit d = true
          · rw [show subDigAux false (a :: d :: rest2) = ' ' :: subDigAux true (d :: rest2) from by
              simp [subDigAux, ha, hd]] at h
            rcases List.mem_cons.mp h with h2 | h2
            · exact Or.inr h2
            · rcases ih true h2 with h3 | h3
              · exact Or.inl (List.mem_cons_of_mem a h3)
              · exact Or.inr h3
          · rw [show subDigAux false (a :: d :: rest2) = a :: subDigAux false (d :: rest2) from by
              simp [subDigAux, ha, hd]] at h
            rcases List.mem_cons.mp h with h2 | h2
            · exact Or.inl (by simp [h2])
            · rcases ih false h2 with h3 | h3
              · exact Or.inl (List.mem_cons_of_mem a h3)
              · exact Or.inr h3
    · rw [subDigAux_cons_not_digit (by simpa using ha) b] at h
      rcases List.mem_cons.mp h with h2 | h2
      · exact Or.inl (by simp [h2])
      · rcases ih false h2 with h3 | h3
        · exact Or.inl (List.mem_cons_of_mem a h3)
        · exact Or.inr h3

/-! ### C8 lemma stack part 2: whitespace collapsing -/

theorem subSpaceAux_cons_not_ws {d : Char} {rest : List Char}
    (hd : pyIsSpace d = false) (b : Bool) :
    subSpaceAux b (d :: rest) = d :: subSpaceAux false rest := by
  cases b <;> simp [subSpaceAux, hd]

theorem subSpaceAux_true_head {l : List Char} :
    ∀ y ∈ (subSpaceAux true l).head?, pyIsSpace y = false := by
  induction l with
  | nil => simp [subSpaceAux]
  | cons c rest ih =>
    by_cases hc : pyIsSpace c = true
    · rw [show subSpaceAux true (c :: rest) = subSpaceAux true rest from by
        simp [subSpaceAux, hc]]
      exact ih
    · rw [subSpaceAux_cons_not_ws (by simpa using hc) true]
      intro y hy
      simp at hy
      rw [← hy]
      simpa using hc

/-- The whitespace of the output is single spaces only. -/
def WsOk (l : List Char) : Prop := ∀ c ∈ l, pyIsSpace c = true → c = ' '

theorem subSpaceAux_output (l : List Char) :
    ∀ b, List.Chain' NoAdjWs (subSpaceAux b l) ∧ WsOk (subSpaceAux b l) := by
  induction l with
  | nil => intro b; cases b <;> exact ⟨List.chain'_nil, by simp [WsOk, subSpaceAux]⟩
  | cons c rest ih =>
    intro b
    by_cases hc : pyIsSpace c = true
    · cases b with
      | true =>
        rw [show subSpaceAux true (c :: rest) = subSpaceAux true rest from by
          simp [subSpaceAux, hc]]
        exact ih true
      | false =>
        rw [show subSpaceAux false (c :: rest) = ' ' :: subSpaceAux true rest from by
          simp [subSpaceAux, hc]]
        constructor
        · rw [List.chain'_cons']
          refine ⟨?_, (ih true).1⟩
          intro y hy
          have := subSpaceAux_true_head y hy
          simp [NoAdjWs, this]
        · intro x hx hws
          rcases List.mem_cons.mp hx with h2 | h2
          · exact h2
          · exact (ih true).2 x h2 hws
    · rw [subSpaceAux_cons_not_ws (by simpa using hc) b]
      constructor
      · rw [List.chain'_cons']
        refine ⟨?_, (ih false).1⟩
        intro y _
        simp [NoAdjWs, hc]
      · intro x hx hws
        rcases List.mem_cons.mp hx with h2 | h2
        · rw [h2] at hws; exact absurd hws hc
        · exact (ih false).2 x h2 hws

theorem subSpaceAux_true_eq_false {d : Char} {rest : List Char}
    (hd : pyIsSpace d = false) :
    subSpaceAux true (d :: rest) = subSpaceAux false (d :: rest) := by
  simp [subSpaceAux, hd]

theorem subSpaceAux_id {l : List Char} (hws : WsOk l)
    (h : List.Chain' NoAdjWs l) : subSpaceAux false l = l := by
  induction l with
  | nil => rfl
  | cons c rest ih =>
    rw [List.chain'_cons'] at h
    have hws2 : WsOk rest := fun x hx => hws x (List.mem_cons_of_mem c hx)
    by_cases hc : pyIsSpace c = true
    · have hcsp : c = ' ' := hws c (by simp) hc
      cases rest with
      | nil => simp [subSpaceAux, hc, hcsp]
      | cons d rest2 =>
        have hd : pyIsSpace d = false := by
          have := h.1 d rfl
          simp [NoAdjWs, hc] at this
          exact this
        rw [show subSpaceAux false (c :: d :: rest2) = ' ' :: subSpaceAux true (d :: rest2) from by
          simp [subSpaceAux, hc]]
        rw [subSpaceAux_true_eq_false hd, ih hws2 h.2, hcsp]
    · rw [subSpaceAux_cons_not_ws (by simpa using hc) false, ih hws2 h.2]

theorem subSpaceAux_false_head (l : List Char) :
    ∀ y ∈ (subSpaceAux false l).head?, y = ' ' ∨ l.head? = some y := by
  cases l with
  | nil => simp [subSpaceAux]
  | cons c rest =>
    by_cases hc : pyIsSpace c = true
    · rw [show subSpaceAux false (c :: rest) = ' ' :: subSpaceAux true rest from by
        simp [subSpaceAux, hc]]
      intro y hy
      simp at hy
      exact Or.inl hy.symm
    · rw [subSpaceAux_cons_not_ws (by simpa using hc) false]
      intro y hy
      simp at hy
      exact Or.inr (by simp [hy])

theorem subSpaceAux_chain_digits (l : List Char) :
    ∀ b, List.Chain' NoAdjDigits l → List.Chain' NoAdjDigits (subSpaceAux b l) := by
  induction l with
  | nil => intro b _; cases b <;> exact List.chain'_nil
  | cons c rest ih =>
    intro b h
    rw [List.chain'_cons'] at h
    by_cases hc : pyIsSpace c = true
    · cases b with
      | true =>
        rw [show subSpaceAux true (c :: rest) = subSpaceAux true rest from by
          simp [subSpaceAux, hc]]
        exact ih true h.2
      | false =>
        rw [show subSpaceAux false (c :: rest) = ' ' :: subSpaceAux true rest from by
          simp [subSpaceAux, hc]]
        rw [List.chain'_cons']
        refine ⟨?_, ih true h.2⟩
        intro y _
        simp [NoAdjDigits, isPyDigit]
    · rw [subSpaceAux_cons_not_ws (by simpa using hc) b, List.chain'_cons']
      refine ⟨?_, ih false h.2⟩
      intro y hy
      rcases subSpaceAux_false_head rest y hy with h2 | h2
      · rw [h2]; simp [NoAdjDigits, isPyDigit]
      · exact h.1 y h2

theorem subSpaceAux_mem {l : List Char} {c : Char} :
    ∀ b, c ∈ subSpaceAux b l → c ∈ l ∨ c = ' ' := by
  induction l with
  | nil => intro b h; cases b <;> simp [subSpaceAux] at h
  | cons a rest ih =>
    intro b h
    by_cases ha : pyIsSpace a = true
    · cases b with
      | true =>
        rw [show subSpaceAux true (a :: rest) = subSpaceAux true rest from by
          simp [subSpaceAux, ha]] at h
        rcases ih true h with h2 | h2
        · exact Or.inl (List.mem_cons_of_mem a h2)
        · exact Or.inr h2
      | false =>
        rw [show subSpaceAux false (a :: rest) = ' ' :: subSpaceAux true rest from by
          simp [subSpaceAux, ha]] at h
        rcases List.mem_cons.mp h with h2 | h2
        · exact Or.inr h2
        · rcases ih true h2 with h3 | h3
          · exact Or.inl (List.mem_cons_of_mem a h3)
          · exact Or.inr h3
    · rw [subSpaceAux_cons_not_ws (by simpa using ha) b] at h
      rcases List.mem_cons.mp h with h2 | h2
      · exact Or.inl (by simp [h2])
      · rcases ih false h2 with h3 | h3
        · exact Or.inl (List.mem_cons_of_mem a h3)
        · exact Or.inr h3

/-! ### C8 lemma stack part 3: splitting, joining, stripping -/

theorem splitChar_ne_nil (sep : Char) (l : List Char) : splitChar sep l ≠ [] := by
  cases l with
  | nil => simp [splitChar]
  | cons c rest =>
    by_cases hc : c = sep
    · simp [splitChar, hc]
    · simp only [splitChar, if_neg hc]
      cases h : splitChar sep rest with
      | nil => simp
      | cons hh tt => simp

theorem splitChar_head (sep : Char) (l : List Char) :
    ∃ tt, splitChar sep l = (l.takeWhile (fun c => c != sep)) :: tt := by
  induction l with
  | nil => exact ⟨[], rfl⟩
  | cons c rest ih =>
    by_cases hc : c = sep
    · subst hc
      exact ⟨splitChar c rest, by simp [splitChar, List.takeWhile_cons]⟩
    · obtain ⟨tt, htt⟩ := ih
      refine ⟨tt, ?_⟩
      simp only [splitChar, if_neg hc, htt, List.takeWhile_cons]
      simp [hc]

theorem splitChar_infix_of_mem (sep : Char) (l : List Char) :
    ∀ t ∈ splitChar sep l, t <:+: l := by
  induction l with
  | nil =>
    intro t ht
    simp [splitChar] at ht
    simp [ht]
  | cons c rest ih =>
    intro t ht
    by_cases hc : c = sep
    · rw [show splitChar sep (c :: rest) = [] :: splitChar sep rest from by
        simp [splitChar, hc]] at ht
      rcases List.mem_cons.mp ht with h2 | h2
      · simp [h2]
      · exact List.infix_cons (ih t h2)
    · cases hsp : splitChar sep rest with
      | nil => exact absurd hsp (splitChar_ne_nil sep rest)
      | cons hh tt =>
        rw [show splitChar sep (c :: rest) = (c :: hh) :: tt from by
          simp [splitChar, hc, hsp]] at ht
        rcases List.mem_cons.mp ht with h2 | h2
        · obtain ⟨tt2, htt2⟩ := splitChar_head sep rest
          have hhh : hh = rest.takeWhile (fun x => x != sep) := by
            have := hsp.symm.trans htt2
            exact (List.cons.injEq _ _ _ _ ▸ this).1
          have hpre : hh <+: rest := hhh ▸ List.takeWhile_prefix _
          obtain ⟨r, hr⟩ := hpre
          exact h2 ▸ ⟨[], r, by simp [hr]⟩
        · have hmem : t ∈ splitChar sep rest := by
            rw [hsp]; exact List.mem_cons_of_mem hh h2
          exact List.infix_cons (ih t hmem)

theorem splitChar_no_sep (sep : Char) (l : List Char) :
    ∀ t ∈ splitChar sep l, sep ∉ t := by
  induction l with
  | nil =>
    intro t ht
    simp [splitChar] at ht
    simp [ht]
  | cons c rest ih =>
    intro t ht
    by_cases hc : c = sep
    · rw [show splitChar sep (c :: rest) = [] :: splitChar sep rest from by
        simp [splitChar, hc]] at ht
      rcases List.mem_cons.mp ht with h2 | h2
      · simp [h2]
      · exact ih t h2
    · cases hsp : splitChar sep rest with
      | nil => exact absurd hsp (splitChar_ne_nil sep rest)
      | cons hh tt =>
        rw [show splitChar sep (c :: rest) = (c :: hh) :: tt from by
          simp [splitChar, hc, hsp]] at ht
        rcases List.mem_cons.mp ht with h2 | h2
        · obtain ⟨tt2, htt2⟩ := splitChar_head sep rest
          have hhh : hh = rest.takeWhile (fun x => x != sep) := by
            have := hsp.symm.trans htt2
            exact (List.cons.injEq _ _ _ _ ▸ this).1
          rw [h2]
          intro hsepmem
          rcases List.mem_cons.mp hsepmem with h3 | h3
          · exact hc h3.symm
          · rw [hhh] at h3
            have := List.mem_takeWhile_imp h3
            simp at this
        · have hmem : t ∈ splitChar sep rest := by
            rw [hsp]; exact List.mem_cons_of_mem hh h2
          exact ih t hmem

theorem splitChar_no_sep_eq (sep : Char) (t : List Char) (h : sep ∉ t) :
    splitChar sep t = [t] := by
  induction t with
  | nil => rfl
  | cons c t2 ih =>
    have hc : ¬(c = sep) := fun hh => h (by simp [hh])
    have ht2 : sep ∉ t2 := fun hh => h (List.mem_cons_of_mem c hh)
    simp [splitChar, hc, ih ht2]

theorem splitChar_append (sep : Char) (t m : List Char) (h : sep ∉ t) :
    splitChar sep (t ++ sep :: m) = t :: splitChar sep m := by
  induction t with
  | nil => simp [splitChar]
  | cons c t2 ih =>
    have hc : ¬(c = sep) := fun hh => h (by simp [hh])
    have ht2 : sep ∉ t2 := fun hh => h (List.mem_cons_of_mem c hh)
    simp [splitChar, hc, ih ht2]

theorem splitChar_joinSep (sep : Char) (ts : List (List Char))
    (h : ∀ t ∈ ts, sep ∉ t) (hne : ts ≠ []) :
    splitChar sep (joinSep sep ts) = ts := by
  induction ts with
  | nil => exact absurd rfl hne
  | cons t ts2 ih =>
    cases ts2 with
    | nil => exact splitChar_no_sep_eq sep t (h t (by simp))
    | cons t2 ts3 =>
      rw [show joinSep sep (t :: t2 :: ts3) = t ++ sep :: joinSep sep (t2 :: ts3) from rfl]
      rw [splitChar_append sep t _ (h t (by simp))]
      rw [ih (fun x hx => h x (List.mem_cons_of_mem t hx)) (by simp)]

theorem joinSep_ne_nil {sep : Char} {ts : List (List Char)} (hne : ts ≠ [])
    (hts : ∀ t ∈ ts, t ≠ []) : joinSep sep ts ≠ [] := by
  cases ts with
  | nil => exact absurd rfl hne
  | cons t ts2 =>
    cases ts2 with
    | nil => exact hts t (by simp)
    | cons t2 ts3 =>
      rw [show joinSep sep (t :: t2 :: ts3) = t ++ sep :: joinSep sep (t2 :: ts3) from rfl]
      simp

theorem joinSep_head {sep : Char} {t : List Char} {ts : List (List Char)} (ht : t ≠ []) :
    (joinSep sep (t :: ts)).head? = t.head? := by
  cases ts with
  | nil => rfl
  | cons t2 ts3 =>
    rw [show joinSep sep (t :: t2 :: ts3) = t ++ sep :: joinSep sep (t2 :: ts3) from rfl]
    exact List.head?_append_of_ne_nil _ ht

theorem joinSep_getLast {sep : Char} {ts : List (List Char)} (hne : ts ≠ [])
    (hts : ∀ t ∈ ts, t ≠ []) :
    ∃ t ∈ ts, (joinSep sep ts).getLast? = t.getLast? := by
  induction ts with
  | nil => exact absurd rfl hne
  | cons t ts2 ih =>
    cases ts2 with
    | nil => exact ⟨t, by simp, rfl⟩
    | cons t2 ts3 =>
      obtain ⟨u, hu, hul⟩ := ih (by simp) (fun x hx => hts x (List.mem_cons_of_mem t hx))
      refine ⟨u, List.mem_cons_of_mem t hu, ?_⟩
      rw [show joinSep sep (t :: t2 :: ts3) = t ++ sep :: joinSep sep (t2 :: ts3) from rfl]
      have hJ : joinSep sep (t2 :: ts3) ≠ [] :=
        joinSep_ne_nil (by simp) (fun x hx => hts x (List.mem_cons_of_mem t hx))
      rw [List.getLast?_append_of_ne_nil t (by simp),
        show (sep :: joinSep sep (t2 :: ts3) : List Char) =
          [sep] ++ joinSep sep (t2 :: ts3) from rfl,
        List.getLast?_append_of_ne_nil [sep] hJ, hul]

theorem joinSep_chain {R : Char → Char → Prop} {sep : Char} {ts : List (List Char)}
    (hchain : ∀ t ∈ ts, List.Chain' R t)
    (hlast : ∀ t ∈ ts, ∀ x ∈ t.getLast?, R x sep)
    (hhead : ∀ t ∈ ts, ∀ y ∈ t.head?, R sep y)
    (hne : ∀ t ∈ ts, t ≠ []) :
    List.Chain' R (joinSep sep ts) := by
  induction ts with
  | nil => exact List.chain'_nil
  | cons t ts2 ih =>
    cases ts2 with
    | nil => exact hchain t (by simp)
    | cons t2 ts3 =>
      rw [show joinSep sep (t :: t2 :: ts3) = t ++ sep :: joinSep sep (t2 :: ts3) from rfl]
      rw [List.chain'_append]
      refine ⟨hchain t (by simp), ?_, ?_⟩
      · rw [List.chain'_cons']
        constructor
        · intro y hy
          rw [joinSep_head (hne t2 (by simp))] at hy
          exact hhead t2 (by simp) y hy
        · exact ih (fun a ha => hchain a (List.mem_cons_of_mem t ha))
            (fun a ha => hlast a (List.mem_cons_of_mem t ha))
            (fun a ha => hhead a (List.mem_cons_of_mem t ha))
            (fun a ha => hne a (List.mem_cons_of_mem t ha))
      · intro x hx y hy
        simp at hy
        rw [← hy]
        exact hlast t (by simp) x hx

theorem joinSep_mem {sep : Char} {ts : List (List Char)} {c : Char}
    (h : c ∈ joinSep sep ts) : c = sep ∨ ∃ t ∈ ts, c ∈ t := by
  induction ts with
  | nil => simp [joinSep] at h
  | cons t ts2 ih =>
    cases ts2 with
    | nil => exact Or.inr ⟨t, by simp, h⟩
    | cons t2 ts3 =>
      rw [show joinSep sep (t :: t2 :: ts3) = t ++ sep :: joinSep sep (t2 :: ts3) from rfl] at h
      rcases List.mem_append.mp h with h2 | h2
      · exact Or.inr ⟨t, by simp, h2⟩
      · rcases List.mem_cons.mp h2 with h3 | h3
        · exact Or.inl h3
        · rcases ih h3 with h4 | ⟨u, hu, hcu⟩
          · exact Or.inl h4
          · exact Or.inr ⟨u, List.mem_cons_of_mem t hu, hcu⟩

theorem stripL_id {l : List Char} (hh : ∀ y ∈ l.head?, pyIsSpace y = false)
    (hl : ∀ y ∈ l.getLast?, pyIsSpace y = false) : stripL l = l := by
  cases l with
  | nil => rfl
  | cons c rest =>
    have hc : pyIsSpace c = false := hh c rfl
    unfold stripL
    rw [show lstripL (c :: rest) = c :: rest from lstripL_of_head_not_space hc]
    unfold rstripL
    cases hrev : (c :: rest).reverse with
    | nil => simp at hrev
    | cons d rev2 =>
      have hd : (c :: rest).getLast? = some d := by
        rw [← List.head?_reverse, hrev]; rfl
      have hdws : pyIsSpace d = false := hl d hd
      rw [show List.dropWhile pyIsSpace (d :: rev2) = d :: rev2 from by
        simp [List.dropWhile, hdws]]
      rw [← hrev, List.reverse_reverse]

theorem chain'_of_all_not_ws {t : List Char} (h : ∀ c ∈ t, pyIsSpace c = false) :
    List.Chain' NoAdjWs t := by
  induction t with
  | nil => exact List.chain'_nil
  | cons a t2 ih =>
    rw [List.chain'_cons']
    exact ⟨fun y _ => by simp [NoAdjWs, h a (by simp)],
      ih fun c hc => h c (List.mem_cons_of_mem a hc)⟩

theorem map_id_of_fix {f : Char → Char} {l : List Char} (h : ∀ c ∈ l, f c = c) :
    l.map f = l := by
  induction l with
  | nil => rfl
  | cons a l2 ih =>
    simp only [List.map_cons, h a (by simp),
      ih fun c hc => h c (List.mem_cons_of_mem a hc)]

theorem swapCharL_id {l : List Char} {a b : Char} (h : a ∉ l) : swapCharL l a b = l :=
  map_id_of_fix fun c hc => by
    have hca : ¬(c = a) := fun hh => h (hh ▸ hc)
    simp [hca]

theorem filter_id_of_all {α : Type} {p : α → Bool} {l : List α}
    (h : ∀ a ∈ l, p a = true) : l.filter p = l := by
  induction l with
  | nil => rfl
  | cons a l2 ih =>
    rw [List.filter_cons_of_pos (h a (by simp)),
      ih fun c hc => h c (List.mem_cons_of_mem a hc)]

/-! ### C8 lemma stack part 4: characters of the preprocessed text -/

theorem swapCharL_mem {l : List Char} {a b c : Char} (h : c ∈ swapCharL l a b) :
    c = b ∨ (c ∈ l ∧ c ≠ a) := by
  unfold swapCharL at h
  obtain ⟨x, hx, hxc⟩ := List.mem_map.mp h
  by_cases hxa : (x == a) = true
  · rw [if_pos hxa] at hxc
    exact Or.inl hxc.symm
  · rw [if_neg (by simpa using hxa)] at hxc
    refine Or.inr ⟨hxc ▸ hx, ?_⟩
    rw [← hxc]
    simpa using hxa

theorem descPre_chars {l : List Char} {c : Char} (h : c ∈ descPre l) :
    lowerChar c = c ∧ c ≠ ';' ∧ c ≠ ',' := by
  unfold descPre at h
  rcases subSpaceAux_mem false h with h2 | hsp
  · rcases subDigAux_mem false h2 with h3 | hsp
    · rcases swapCharL_mem h3 with hb | ⟨h4, hcomma⟩
      · rw [hb]; exact ⟨by decide, by decide, by decide⟩
      · rcases swapCharL_mem h4 with hb | ⟨h5, hsemi⟩
        · rw [hb]; exact ⟨by decide, by decide, by decide⟩
        · obtain ⟨x, _, hxc⟩ := List.mem_map.mp h5
          exact ⟨by rw [← hxc]; exact lowerChar_lowerChar x, hsemi, hcomma⟩
    · rw [hsp]; exact ⟨by decide, by decide, by decide⟩
  · rw [hsp]; exact ⟨by decide, by decide, by decide⟩

theorem descPre_wsok (l : List Char) : WsOk (descPre l) :=
  (subSpaceAux_output _ false).2

theorem descPre_chain (l : List Char) : List.Chain' NoAdjDigits (descPre l) :=
  subSpaceAux_chain_digits _ false (subDigAux_chain _ false)

/-- C8: `normalize_description` is idempotent. -/
theorem claim_C8 (x : String) :
    normalize_description (normalize_description x) = normalize_description x := by
  cases hts : descTokens x.data with
  | nil =>
    have h1 : normalize_description x = "" := by
      unfold normalize_description
      rw [hts]
      decide
    rw [h1]
    decide
  | cons t0 ts2 =>
    have htok : ∀ t ∈ descTokens x.data,
        t ≠ [] ∧ t ∉ STOPWORDS_L ∧ ' ' ∉ t ∧ t <:+: descPre x.data := by
      intro t ht
      unfold descTokens at ht
      have hmem := List.mem_of_mem_filter ht
      have hp := List.of_mem_filter ht
      simp only [Bool.and_eq_true, decide_eq_true_eq, Bool.not_eq_true', decide_eq_false_iff_not] at hp
      exact ⟨hp.1, hp.2, splitChar_no_sep ' ' _ t hmem, splitChar_infix_of_mem ' ' _ t hmem⟩
    have hchar : ∀ t ∈ descTokens x.data, ∀ c ∈ t,
        pyIsSpace c = false ∧ lowerChar c = c ∧ c ≠ ';' ∧ c ≠ ',' := by
      intro t ht c hc
      obtain ⟨hne', hstp, hnosp, hinf⟩ := htok t ht
      have hcin : c ∈ descPre x.data := hinf.sublist.subset hc
      have hlow := descPre_chars hcin
      have hws : pyIsSpace c = false := by
        by_contra hws'
        rw [Bool.not_eq_false] at hws'
        have := descPre_wsok x.data c hcin hws'
        exact hnosp (this ▸ hc)
      exact ⟨hws, hlow.1, hlow.2.1, hlow.2.2⟩
    rw [hts] at htok hchar
    have hts_ne : ∀ t ∈ t0 :: ts2, t ≠ [] := fun t ht => (htok t ht).1
    have hchainT : ∀ t ∈ t0 :: ts2, List.Chain' NoAdjDigits t := fun t ht =>
      List.Chain'.infix (descPre_chain x.data) (htok t ht).2.2.2
    have hstrip : stripL (joinSep ' ' (t0 :: ts2)) = joinSep ' ' (t0 :: ts2) := by
      apply stripL_id
      · intro y hy
        rw [joinSep_head (hts_ne t0 (by simp))] at hy
        exact (hchar t0 (by simp) y (List.mem_of_mem_head? hy)).1
      · intro y hy
        obtain ⟨u, hu, hul⟩ := @joinSep_getLast ' ' (t0 :: ts2) (by simp) hts_ne
        rw [hul] at hy
        exact (hchar u hu y (List.mem_of_mem_getLast? hy)).1
    have h1 : normalize_description x = ⟨joinSep ' ' (t0 :: ts2)⟩ := by
      unfold normalize_description
      rw [hts, hstrip]
    have hmemr : ∀ c ∈ joinSep ' ' (t0 :: ts2), c = ' ' ∨ ∃ t ∈ t0 :: ts2, c ∈ t :=
      fun c hc => joinSep_mem hc
    have h2 : descPre (joinSep ' ' (t0 :: ts2)) = joinSep ' ' (t0 :: ts2) := by
      unfold descPre
      rw [map_id_of_fix (by
        intro c hc
        rcases hmemr c hc with h | ⟨t, ht, hct⟩
        · rw [h]; decide
        · exact (hchar t ht c hct).2.1)]
      rw [swapCharL_id (by
        intro hcomma
        rcases swapCharL_mem hcomma with h | ⟨hin, _⟩
        · exact absurd h (by decide)
        · rcases hmemr ',' hin with h | ⟨t, ht, hct⟩
          · exact absurd h (by decide)
          · exact (hchar t ht ',' hct).2.2.2 rfl)]
      rw [swapCharL_id (by
        intro hsemi
        rcases hmemr ';' hsemi with h | ⟨t, ht, hct⟩
        · exact absurd h (by decide)
        · exact (hchar t ht ';' hct).2.2.1 rfl)]
      unfold subDigitRuns subSpaceRuns
      rw [subDigAux_id (joinSep_chain hchainT
        (fun t _ x _ => by simp [NoAdjDigits, isPyDigit])
        (fun t _ y _ => by simp [NoAdjDigits, isPyDigit]) hts_ne)]
      rw [subSpaceAux_id
        (by
          intro c hc hws
          rcases hmemr c hc with h | ⟨t, ht, hct⟩
          · exact h
          · exact absurd hws (by simp [(hchar t ht c hct).1]))
        (joinSep_chain
          (fun t ht => chain'_of_all_not_ws (fun c hc => (hchar t ht c hc).1))
          (fun t ht x hx => by
            simp [NoAdjWs, (hchar t ht x (List.mem_of_mem_getLast? hx)).1])
          (fun t ht y hy => by
            simp [NoAdjWs, (hchar t ht y (List.mem_of_mem_head? hy)).1])
          hts_ne)]
    have h3 : descTokens (joinSep ' ' (t0 :: ts2)) = t0 :: ts2 := by
      unfold descTokens
      rw [h2, splitChar_joinSep ' ' _ (fun t ht => (htok t ht).2.2.1) (by simp)]
      apply filter_id_of_all
      intro t ht
      simp only [Bool.and_eq_true, decide_eq_true_eq, Bool.not_eq_true', decide_eq_false_iff_not]
      exact ⟨(htok t ht).1, (htok t ht).2.1⟩
    rw [h1]
    unfold normalize_description
    rw [show (String.mk (joinSep ' ' (t0 :: ts2))).data = joinSep ' ' (t0 :: ts2) from rfl]
    rw [h3, hstrip]
